import Mathlib

/-!
# Dynarmic reference interpreter

Shallow embedding of the handlers of `src/backend/interpreter/interpreter_data_processing.cpp`
and `interpreter.cpp`, of the value store of `value.h`, and of the operand resolution
and dispatch of `interpreter_detail.h`.
Machine integers are natural numbers; a `u32` is a `Nat` below `2 ^ 32`, a `u64`
a `Nat` below `2 ^ 64`, and every C++ operation that wraps is followed by an
explicit `% 2 ^ w`.
-/

namespace Dynarmic

/-- Composite `ResultAndCarry<T>` of value.h: a result and a carry flag. -/
structure ResultAndCarry where
  result : Nat
  carry : Bool
deriving DecidableEq, Repr

/-- Composite `ResultAndNZCV<T>` of value.h: a result and the four condition flags. -/
structure ResultAndNZCV where
  result : Nat
  negative : Bool
  zero : Bool
  carry : Bool
  overflow : Bool
deriving DecidableEq, Repr

/-- Result of the widening multiply of common/u128.h: the two 64-bit halves. -/
structure U128 where
  lower : Nat
  upper : Nat
deriving DecidableEq, Repr

/-- The C++ operator `~` on an unsigned integer of `w` bits. -/
def bitNot (w x : Nat) : Nat := 2 ^ w - 1 - x % 2 ^ w

/-- The value of a `w`-bit pattern read as a two's-complement signed integer
(the C++ `static_cast` from `uN` to `sN`). -/
def toSigned (w x : Nat) : Int :=
  if x < 2 ^ (w - 1) then (x : Int) else (x : Int) - 2 ^ w

/-- The C++ conversion `carry_in ? 1 : 0`. -/
def boolToNat (b : Bool) : Nat := if b then 1 else 0

namespace Common

/-- Modelled from the spec: `Common::MostSignificantBit` of common/bit_util.h is not
among the sources; the spec calls it the sign bit, bit `w - 1` of a `w`-bit value. -/
def MostSignificantBit (w x : Nat) : Bool := x.testBit (w - 1)

/-- Modelled from the spec: `Common::Bit<N>` of common/bit_util.h is not among the
sources; it extracts bit `n` of its argument. -/
def Bit (n x : Nat) : Bool := x.testBit n

/-- Modelled from the spec: `Common::RotateRight` of common/bit_util.h is not among
the sources; the rotate primitive of a `w`-bit value, the amount taken modulo `w`,
an amount of zero returning the value. -/
def RotateRight (w value amount : Nat) : Nat :=
  let amt := amount % w
  if amt = 0 then value
  else ((value >>> amt) ||| (value <<< (w - amt))) % 2 ^ w

end Common

/-- Modelled from the spec: `Multiply64To128` of common/u128.h is not among the
sources; the spec describes it as the 128-bit widening multiply of two unsigned
64-bit operands, whose upper 64 bits the multiply-high handlers take. -/
def Multiply64To128 (a b : Nat) : U128 :=
  { lower := (a * b) % 2 ^ 64, upper := (a * b) / 2 ^ 64 % 2 ^ 64 }

namespace Safe

/-- Modelled from the spec: `Safe::LogicalShiftLeft` of common/safe_ops.h is not among
the sources; the safe shift has a defined result for every amount: an amount of the
register width or more gives zero, an amount in range is the wrapping C++ shift, and
a negative amount shifts the other way. -/
def LogicalShiftLeft (w value : Nat) (shift_amount : Int) : Nat :=
  if shift_amount ≥ (w : Int) then 0
  else if shift_amount < 0 then
    (if -shift_amount ≥ (w : Int) then 0 else value >>> (-shift_amount).toNat)
  else (value <<< shift_amount.toNat) % 2 ^ w

/-- Modelled from the spec: `Safe::LogicalShiftRight` of common/safe_ops.h is not
among the sources; an amount of the register width or more gives zero, an amount in
range is the C++ unsigned shift, and a negative amount shifts the other way. -/
def LogicalShiftRight (w value : Nat) (shift_amount : Int) : Nat :=
  if shift_amount ≥ (w : Int) then 0
  else if shift_amount < 0 then
    (if -shift_amount ≥ (w : Int) then 0 else (value <<< (-shift_amount).toNat) % 2 ^ w)
  else value >>> shift_amount.toNat

/-- Modelled from the spec: `Safe::ArithmeticShiftRight` of common/safe_ops.h is not
among the sources; an amount of the register width or more fills the register with
the sign bit, an amount in range is the C++ shift of the value read as signed, and
a negative amount shifts left. -/
def ArithmeticShiftRight (w value : Nat) (shift_amount : Int) : Nat :=
  if shift_amount ≥ (w : Int) then
    (if Common.MostSignificantBit w value then 2 ^ w - 1 else 0)
  else if shift_amount < 0 then
    (if -shift_amount ≥ (w : Int) then 0 else (value <<< (-shift_amount).toNat) % 2 ^ w)
  else ((toSigned w value >>> shift_amount.toNat) % 2 ^ w).toNat

end Safe

/-! ## Handlers of interpreter_data_processing.cpp -/

/-- Handler `Interpreter::ExecuteLogicalShiftLeft32(u32 value, u8 shift, bool carry_in)`. -/
def ExecuteLogicalShiftLeft32 (value shift : Nat) (carry_in : Bool) : ResultAndCarry :=
  if shift = 0 then { result := value, carry := carry_in }
  else
    let result := Safe.LogicalShiftLeft 32 value (shift : Int)
    let carry := Common.Bit 0 (Safe.LogicalShiftLeft 32 value ((shift : Int) + 32))
    { result := result, carry := carry }

/-- Handler `Interpreter::ExecuteLogicalShiftLeft64(u64 value, u8 shift)`. -/
def ExecuteLogicalShiftLeft64 (value shift : Nat) : Nat :=
  Safe.LogicalShiftLeft 64 value (shift : Int)

/-- Handler `Interpreter::ExecuteLogicalShiftRight32(u32 value, u8 shift, bool carry_in)`. -/
def ExecuteLogicalShiftRight32 (value shift : Nat) (carry_in : Bool) : ResultAndCarry :=
  if shift = 0 then { result := value, carry := carry_in }
  else
    let result := Safe.LogicalShiftRight 32 value (shift : Int)
    let carry := Common.Bit 0 (Safe.LogicalShiftRight 32 value ((shift : Int) - 1))
    { result := result, carry := carry }

/-- Handler `Interpreter::ExecuteLogicalShiftRight64(u64 value, u8 shift)`. -/
def ExecuteLogicalShiftRight64 (value shift : Nat) : Nat :=
  Safe.LogicalShiftRight 64 value (shift : Int)

/-- Handler `Interpreter::ExecuteArithmeticShiftRight32(u32 value, u8 shift, bool carry_in)`. -/
def ExecuteArithmeticShiftRight32 (value shift : Nat) (carry_in : Bool) : ResultAndCarry :=
  if shift = 0 then { result := value, carry := carry_in }
  else
    let result := Safe.ArithmeticShiftRight 32 value (shift : Int)
    let carry := Common.Bit 0 (Safe.ArithmeticShiftRight 32 value ((shift : Int) - 1))
    { result := result, carry := carry }

/-- Handler `Interpreter::ExecuteArithmeticShiftRight64(u64 value, u8 shift)`. -/
def ExecuteArithmeticShiftRight64 (value shift : Nat) : Nat :=
  Safe.ArithmeticShiftRight 64 value (shift : Int)

/-- Handler `Interpreter::ExecuteRotateRight32(u32 value, u8 shift, bool carry_in)`. -/
def ExecuteRotateRight32 (value shift : Nat) (carry_in : Bool) : ResultAndCarry :=
  if shift = 0 then { result := value, carry := carry_in }
  else
    let result := Common.RotateRight 32 value shift
    let carry := Common.MostSignificantBit 32 result
    { result := result, carry := carry }

/-- Handler `Interpreter::ExecuteRotateRight64(u64 value, u8 shift)`. -/
def ExecuteRotateRight64 (value shift : Nat) : Nat :=
  Common.RotateRight 64 value shift

/-- Handler `Interpreter::ExecuteAdd32(u32 a, u32 b, bool carry_in)`. -/
def ExecuteAdd32 (a b : Nat) (carry_in : Bool) : ResultAndNZCV :=
  let result := (a + b + boolToNat carry_in) % 2 ^ 32
  let negative := Common.MostSignificantBit 32 result
  let zero := decide (result = 0)
  let carry := decide (result < a)
  let overflow := Common.MostSignificantBit 32 ((a ^^^ result) &&& bitNot 32 (a ^^^ b))
  { result := result, negative := negative, zero := zero, carry := carry,
    overflow := overflow }

/-- Handler `Interpreter::ExecuteAdd64(u64 a, u64 b, bool carry_in)`. -/
def ExecuteAdd64 (a b : Nat) (carry_in : Bool) : ResultAndNZCV :=
  let result := (a + b + boolToNat carry_in) % 2 ^ 64
  let negative := Common.MostSignificantBit 64 result
  let zero := decide (result = 0)
  let carry := decide (result < a)
  let overflow := Common.MostSignificantBit 64 ((a ^^^ result) &&& bitNot 64 (a ^^^ b))
  { result := result, negative := negative, zero := zero, carry := carry,
    overflow := overflow }

/-- Handler `Interpreter::ExecuteSub32(u32 a, u32 b, bool carry_in)`. -/
def ExecuteSub32 (a b : Nat) (carry_in : Bool) : ResultAndNZCV :=
  let result := (a + bitNot 32 b + boolToNat carry_in) % 2 ^ 32
  let negative := Common.MostSignificantBit 32 result
  let zero := decide (result = 0)
  let carry := decide (result < a)
  let overflow :=
    Common.MostSignificantBit 32 ((a ^^^ result) &&& bitNot 32 (a ^^^ bitNot 32 b))
  { result := result, negative := negative, zero := zero, carry := carry,
    overflow := overflow }

/-- Handler `Interpreter::ExecuteSub64(u64 a, u64 b, bool carry_in)`. -/
def ExecuteSub64 (a b : Nat) (carry_in : Bool) : ResultAndNZCV :=
  let result := (a + bitNot 64 b + boolToNat carry_in) % 2 ^ 64
  let negative := Common.MostSignificantBit 64 result
  let zero := decide (result = 0)
  let carry := decide (result < a)
  let overflow :=
    Common.MostSignificantBit 64 ((a ^^^ result) &&& bitNot 64 (a ^^^ bitNot 64 b))
  { result := result, negative := negative, zero := zero, carry := carry,
    overflow := overflow }

/-- Handler `Interpreter::ExecuteSignedMultiplyHigh64(u64 a, u64 b)`. -/
def ExecuteSignedMultiplyHigh64 (a b : Nat) : Nat :=
  let unsigned_high := (Multiply64To128 a b).upper
  let correction := boolToNat (Common.MostSignificantBit 64 (a &&& b))
  (unsigned_high + correction) % 2 ^ 64

/-- Handler `Interpreter::ExecuteUnsignedMultiplyHigh64(u64 a, u64 b)`. -/
def ExecuteUnsignedMultiplyHigh64 (a b : Nat) : Nat :=
  (Multiply64To128 a b).upper

namespace Common

/-- Modelled from the spec: `Common::ModifyBit<N>` of common/bit_util.h is not among
the sources; it returns the `w`-bit value with bit `n` replaced by `new_bit`: the bit
is cleared and the new bit, shifted to position `n`, is or-ed in. -/
def ModifyBit (w n value : Nat) (new_bit : Bool) : Nat :=
  (value &&& bitNot w (1 <<< n)) ||| ((boolToNat new_bit <<< n) % 2 ^ w)

end Common

/-- Handler `Interpreter::ExecuteRotateRightExtended(u32 value, bool carry_in)`. -/
def ExecuteRotateRightExtended (value : Nat) (carry_in : Bool) : ResultAndCarry :=
  { result := Common.ModifyBit 32 31 (value >>> 1) carry_in, carry := Common.Bit 0 value }

/-- Handler `Interpreter::ExecuteSignedDiv32(s32 a, s32 b)`: the C++ quotient `a / b`
of two `s32`, which truncates toward zero. The C++ expression has no defined value
for a zero divisor or for the non-representable quotient of `INT32_MIN / -1`; those
two cases return `none`. -/
def ExecuteSignedDiv32 (a b : Int) : Option Int :=
  if b = 0 then none
  else if a = -2 ^ 31 ∧ b = -1 then none
  else some (Int.tdiv a b)

/-- Handler `Interpreter::ExecuteSignedDiv64(s64 a, s64 b)`: as `ExecuteSignedDiv32`,
over `s64`. -/
def ExecuteSignedDiv64 (a b : Int) : Option Int :=
  if b = 0 then none
  else if a = -2 ^ 63 ∧ b = -1 then none
  else some (Int.tdiv a b)

/-- Handler `Interpreter::ExecuteExtractRegister32(u32 lo, u32 hi, u8 shift)`. -/
def ExecuteExtractRegister32 (lo hi shift : Nat) : Nat :=
  let result_lo := Safe.LogicalShiftRight 32 lo (shift : Int)
  let result_hi := Safe.LogicalShiftLeft 32 hi (32 - (shift : Int))
  result_hi ||| result_lo

/-- Handler `Interpreter::ExecuteExtractRegister64(u64 lo, u64 hi, u8 shift)`. -/
def ExecuteExtractRegister64 (lo hi shift : Nat) : Nat :=
  let result_lo := Safe.LogicalShiftRight 64 lo (shift : Int)
  let result_hi := Safe.LogicalShiftLeft 64 hi (64 - (shift : Int))
  result_hi ||| result_lo

/-! ## Pseudo-operations of interpreter.cpp -/

/-- Handler `Interpreter::ExecuteGetNZCVFromOp(ResultAndNZCV<u32> value)`: each flag is
converted to 0 or 1, shifted to its position and or-ed into a `u32` that starts at 0. -/
def ExecuteGetNZCVFromOp (value : ResultAndNZCV) : Nat :=
  let nzcv := 0
  let nzcv := nzcv ||| (boolToNat value.negative <<< 31) % 2 ^ 32
  let nzcv := nzcv ||| (boolToNat value.zero <<< 30) % 2 ^ 32
  let nzcv := nzcv ||| (boolToNat value.carry <<< 29) % 2 ^ 32
  let nzcv := nzcv ||| (boolToNat value.overflow <<< 28) % 2 ^ 32
  nzcv

/-! ## The value store of value.h -/

/-- The type `Vector = std::array<u64, 2>` of value.h: element 0 and element 1. -/
structure Vector where
  lo : Nat
  hi : Nat
deriving DecidableEq, Repr

/-- Composite `ResultAndOverflow<T>` of value.h. -/
structure ResultAndOverflow where
  result : Nat
  overflow : Bool
deriving DecidableEq, Repr

/-- Composite `ResultAndCarryAndOverflow<T>` of value.h. -/
structure ResultAndCarryAndOverflow where
  result : Nat
  carry : Bool
  overflow : Bool
deriving DecidableEq, Repr

/-- Composite `ResultAndGE<T>` of value.h. -/
structure ResultAndGE where
  result : Nat
  ge : Nat
deriving DecidableEq, Repr

/-- Composite `UpperAndLower` of value.h. -/
structure UpperAndLower where
  upper : Vector
  lower : Vector
deriving DecidableEq, Repr

/-- The unsigned integer types `u8`, `u16`, `u32`, `u64` that instantiate `Get<T>`,
`Set<T>` and `ResultAndOverflow<T>`. -/
inductive ScalarType where
  | u8
  | u16
  | u32
  | u64
deriving DecidableEq, Repr

/-- Width in bits of an unsigned integer type. -/
def ScalarType.bits : ScalarType → Nat
  | .u8 => 8
  | .u16 => 16
  | .u32 => 32
  | .u64 => 64

/-- The C++ `static_cast` from `sN` to `uN`: the two's-complement bit pattern. -/
def toUnsigned (w : Nat) (x : Int) : Nat := (x % 2 ^ w).toNat

/-- The struct `Value` of value.h: its only member is the `Variant`, whose sixteen
alternatives are listed in the order of the source. -/
inductive Value where
  | monostate
  | bool (v : Bool)
  | u8 (v : Nat)
  | u16 (v : Nat)
  | u32 (v : Nat)
  | u64 (v : Nat)
  | vector (v : Vector)
  | resultAndCarry_u32 (v : ResultAndCarry)
  | resultAndCarryAndOverflow_u32 (v : ResultAndCarryAndOverflow)
  | resultAndGE_u32 (v : ResultAndGE)
  | resultAndNZCV_u32 (v : ResultAndNZCV)
  | resultAndOverflow_u8 (v : ResultAndOverflow)
  | resultAndOverflow_u16 (v : ResultAndOverflow)
  | resultAndOverflow_u32 (v : ResultAndOverflow)
  | resultAndOverflow_u64 (v : ResultAndOverflow)
  | upperAndLower (v : UpperAndLower)
deriving DecidableEq, Repr

/-- The argument `new_value` of `Value::Set<T>` together with its type `T`: the scalars,
the vector, and the composites that the handlers return. The two composites over `u64`
occupy sixteen bytes of which the fields fill only a part; `padding` is the content of
the remaining bytes of the object, which the language leaves unspecified. -/
inductive SetValue where
  | bool (v : Bool)
  | unsigned (T : ScalarType) (v : Nat)
  | signed (T : ScalarType) (v : Int)
  | vector (v : Vector)
  | resultAndCarry_u32 (v : ResultAndCarry)
  | resultAndCarryAndOverflow_u32 (v : ResultAndCarryAndOverflow)
  | resultAndGE_u32 (v : ResultAndGE)
  | resultAndNZCV_u32 (v : ResultAndNZCV)
  | resultAndNZCV_u64 (v : ResultAndNZCV) (padding : Nat)
  | resultAndOverflow_u8 (v : ResultAndOverflow)
  | resultAndOverflow_u16 (v : ResultAndOverflow)
  | resultAndOverflow_u32 (v : ResultAndOverflow)
  | resultAndOverflow_u64 (v : ResultAndOverflow) (padding : Nat)
  | upperAndLower (v : UpperAndLower)
deriving DecidableEq, Repr

/-- The C++ `sizeof(T)` in bytes of the type of a `Set` argument, on the 64-bit hosts
the project builds for: a `u64` is aligned to eight bytes, so a struct of a `u64`
followed by `bool` flags occupies sixteen bytes; a struct of a `u32` followed by up to
four `bool` flags or by a `u32` occupies eight. -/
def sizeofT : SetValue → Nat
  | .bool _ => 1
  | .unsigned T _ => T.bits / 8
  | .signed T _ => T.bits / 8
  | .vector _ => 16
  | .resultAndCarry_u32 _ => 8
  | .resultAndCarryAndOverflow_u32 _ => 8
  | .resultAndGE_u32 _ => 8
  | .resultAndNZCV_u32 _ => 8
  | .resultAndNZCV_u64 _ _ => 16
  | .resultAndOverflow_u8 _ => 2
  | .resultAndOverflow_u16 _ => 4
  | .resultAndOverflow_u32 _ => 8
  | .resultAndOverflow_u64 _ _ => 16
  | .upperAndLower _ => 32

/-- The C++ `sizeof(Vector)`: two `u64`. -/
def sizeofVector : Nat := 16

/-- Modelled from the spec: `Common::BitCast<Vector>` of common/cast_util.h is not
among the sources; the spec calls it a reinterpretation of the same bit pattern. For
a sixteen-byte object, element 0 is its first eight bytes and element 1 the next
eight (little-endian): the flags of a composite over `u64` are one byte each, followed
by the padding. An object of another size has no such reinterpretation. -/
def BitCastVector : SetValue → Vector
  | .vector v => v
  | .resultAndNZCV_u64 v padding =>
      { lo := v.result
        hi := boolToNat v.negative + 2 ^ 8 * boolToNat v.zero + 2 ^ 16 * boolToNat v.carry
          + 2 ^ 24 * boolToNat v.overflow + 2 ^ 32 * (padding % 2 ^ 32) }
  | .resultAndOverflow_u64 v padding =>
      { lo := v.result, hi := boolToNat v.overflow + 2 ^ 8 * (padding % 2 ^ 56) }
  | _ => { lo := 0, hi := 0 }

/-- Method `Value::Get<T>()` for an unsigned integer `T`; `none` is the
`std::bad_variant_access` thrown by `std::get`. For `T = u32` the composites over
`u32` are unwrapped first, then `ResultAndOverflow<T>`, then the plain scalar. -/
def Value.Get (T : ScalarType) (value : Value) : Option Nat :=
  let unwrapped : Option Nat :=
    if T = ScalarType.u32 then
      match value with
      | .resultAndCarry_u32 v => some v.result
      | .resultAndCarryAndOverflow_u32 v => some v.result
      | .resultAndGE_u32 v => some v.result
      | .resultAndNZCV_u32 v => some v.result
      | _ => none
    else none
  match unwrapped with
  | some r => some r
  | none =>
    match T, value with
    | .u8, .resultAndOverflow_u8 v => some v.result
    | .u16, .resultAndOverflow_u16 v => some v.result
    | .u32, .resultAndOverflow_u32 v => some v.result
    | .u64, .resultAndOverflow_u64 v => some v.result
    | .u8, .u8 v => some v
    | .u16, .u16 v => some v
    | .u32, .u32 v => some v
    | .u64, .u64 v => some v
    | _, _ => none

/-- Method `Value::Get<bool>()`: `bool` is neither signed nor one of the unsigned
integer types, so only `std::get<bool>` is left. -/
def Value.GetBool (value : Value) : Option Bool :=
  match value with
  | .bool v => some v
  | _ => none

/-- Method `Value::Get<T>()` for a signed integer `T`: the unsigned read of the same
width, reinterpreted. -/
def Value.GetSigned (T : ScalarType) (value : Value) : Option Int :=
  (Value.Get T value).map (toSigned T.bits)

/-- Method `Value::Get<T>()` for a 128-bit `T`: `std::get<Vector>`. -/
def Value.GetVector (value : Value) : Option Vector :=
  match value with
  | .vector v => some v
  | _ => none

/-- Method `Value::Set<T>(new_value)`, returning the new content of the `Value`. An
argument of the size of `Vector` is stored as its bit cast to `Vector`; a signed
integer is stored as the unsigned integer of its bit pattern; anything else is
assigned to the variant, which selects the alternative of its own type. The
sixteen-byte arguments never reach the assignment; `ResultAndNZCV<u64>` has no
alternative there. -/
def Value.Set (new_value : SetValue) : Value :=
  if sizeofT new_value = sizeofVector then
    Value.vector (BitCastVector new_value)
  else
    match new_value with
    | .signed T v =>
        (match T with
         | .u8 => Value.u8 (toUnsigned 8 v)
         | .u16 => Value.u16 (toUnsigned 16 v)
         | .u32 => Value.u32 (toUnsigned 32 v)
         | .u64 => Value.u64 (toUnsigned 64 v))
    | .bool v => Value.bool v
    | .unsigned T v =>
        (match T with
         | .u8 => Value.u8 v
         | .u16 => Value.u16 v
         | .u32 => Value.u32 v
         | .u64 => Value.u64 v)
    | .vector v => Value.vector v
    | .resultAndCarry_u32 v => Value.resultAndCarry_u32 v
    | .resultAndCarryAndOverflow_u32 v => Value.resultAndCarryAndOverflow_u32 v
    | .resultAndGE_u32 v => Value.resultAndGE_u32 v
    | .resultAndNZCV_u32 v => Value.resultAndNZCV_u32 v
    | .resultAndNZCV_u64 _ _ => Value.monostate
    | .resultAndOverflow_u8 v => Value.resultAndOverflow_u8 v
    | .resultAndOverflow_u16 v => Value.resultAndOverflow_u16 v
    | .resultAndOverflow_u32 v => Value.resultAndOverflow_u32 v
    | .resultAndOverflow_u64 v _ => Value.resultAndOverflow_u64 v
    | .upperAndLower v => Value.upperAndLower v

/-- Method `Value::GetCarry()`; `none` is the `std::bad_variant_access` it throws. -/
def Value.GetCarry (value : Value) : Option Bool :=
  match value with
  | .resultAndCarry_u32 v => some v.carry
  | .resultAndCarryAndOverflow_u32 v => some v.carry
  | .resultAndNZCV_u32 v => some v.carry
  | _ => none

/-- Method `Value::GetOverflow()`; `none` is the `std::bad_variant_access` it throws. -/
def Value.GetOverflow (value : Value) : Option Bool :=
  match value with
  | .resultAndOverflow_u8 v => some v.overflow
  | .resultAndOverflow_u16 v => some v.overflow
  | .resultAndOverflow_u32 v => some v.overflow
  | .resultAndOverflow_u64 v => some v.overflow
  | .resultAndCarryAndOverflow_u32 v => some v.overflow
  | .resultAndNZCV_u32 v => some v.overflow
  | _ => none

/-! ## Instructions, the execution context and dispatch -/

/-- Identity of an instruction: the pointer `IR::Inst*` that keys the value store. -/
abbrev InstId := Nat

/-- The enumeration `IR::Type`, with the enumerators that `ExecuteIdentity` names. -/
inductive IRType where
  | Void
  | A32Reg
  | A32ExtReg
  | A64Reg
  | A64Vec
  | Opaque
  | U1
  | U8
  | U16
  | U32
  | U64
  | U128
  | CoprocInfo
  | NZCVFlags
  | Cond
  | Table
deriving DecidableEq, Repr

/-- Modelled from the spec: `IR::Value` of frontend/ir/value.h is not among the
sources; an operand is either a reference to a producing instruction or an immediate
carrying its type tag and its literal. -/
inductive IRValue where
  | inst (p : InstId)
  | imm (type : IRType) (bits : Nat)
deriving DecidableEq, Repr

/-- Modelled from the spec: `IR::Inst` of frontend/ir/microinstruction.h is not among
the sources; an instruction exposes its identity and its ordered operand list. -/
structure Inst where
  id : InstId
  args : List IRValue
deriving DecidableEq, Repr

/-- Method `inst->GetArg(i)`: operand `i`, which has to exist. -/
def Inst.GetArg (inst : Inst) (i : Nat) : Option IRValue := inst.args[i]?

/-- The struct `ExecutionContext` of interpreter_context.h: a `std::map` from
instruction identity to `Value`; `none` is an absent key. -/
structure ExecutionContext where
  values : InstId → Option Value

/-- The context an instruction stream starts from: the empty map. -/
def ExecutionContext.empty : ExecutionContext := { values := fun _ => none }

/-- Writing the element of key `k`. -/
def ExecutionContext.store (ctx : ExecutionContext) (k : InstId) (v : Value) :
    ExecutionContext :=
  { values := fun j => if j = k then some v else ctx.values j }

/-- The C++ `ctx.values[k]`, `std::map::operator[]`: the element of key `k`, after
inserting a default-constructed `Value` (the monostate) when the key is absent.
Returns the element and the map after the access. -/
def ExecutionContext.index (ctx : ExecutionContext) (k : InstId) :
    Value × ExecutionContext :=
  match ctx.values k with
  | some v => (v, ctx)
  | none => (Value.monostate, ctx.store k Value.monostate)

/-- The C++ `ctx.values[k].Set(new_value)`. -/
def ExecutionContext.set (ctx : ExecutionContext) (k : InstId) (new_value : SetValue) :
    ExecutionContext :=
  (ctx.index k).2.store k (Value.Set new_value)

/-- Handler `Interpreter::ExecuteIdentity(ExecutionContext& ctx, IR::Inst* inst)`;
`none` is a fatal `UNREACHABLE_MSG` or a failed assertion. -/
def ExecuteIdentity (ctx : ExecutionContext) (inst : Inst) : Option ExecutionContext :=
  match inst.GetArg 0 with
  | none => none
  | some (.inst p) =>
      let (v, ctx1) := ctx.index p
      let ctx2 := (ctx1.index inst.id).2
      some (ctx2.store inst.id v)
  | some (.imm type bits) =>
      match type with
      | .U1 => some (ctx.set inst.id (.bool (decide (bits ≠ 0))))
      | .U8 => some (ctx.set inst.id (.unsigned .u8 bits))
      | .U16 => some (ctx.set inst.id (.unsigned .u16 bits))
      | .U32 => some (ctx.set inst.id (.unsigned .u32 bits))
      | .U64 => some (ctx.set inst.id (.unsigned .u64 bits))
      | _ => none

/-- Handler `Interpreter::ExecuteGetCarryFromOp(ExecutionContext& ctx, IR::Inst* inst)`;
`none` is the exception of `GetCarry` or the failed assertion of `GetInst` on an
immediate. -/
def ExecuteGetCarryFromOp (ctx : ExecutionContext) (inst : Inst) :
    Option ExecutionContext :=
  match inst.GetArg 0 with
  | some (.inst p) =>
      let ctx1 := (ctx.index inst.id).2
      let (v, ctx2) := ctx1.index p
      match v.GetCarry with
      | none => none
      | some c => some (ctx2.store inst.id (Value.Set (.bool c)))
  | _ => none

/-- Handler `Interpreter::ExecuteGetOverflowFromOp(ExecutionContext& ctx, IR::Inst* inst)`;
`none` is the exception of `GetOverflow` or the failed assertion of `GetInst` on an
immediate. -/
def ExecuteGetOverflowFromOp (ctx : ExecutionContext) (inst : Inst) :
    Option ExecutionContext :=
  match inst.GetArg 0 with
  | some (.inst p) =>
      let ctx1 := (ctx.index inst.id).2
      let (v, ctx2) := ctx1.index p
      match v.GetOverflow with
      | none => none
      | some c => some (ctx2.store inst.id (Value.Set (.bool c)))
  | _ => none

/-- The parameter types `ArgT` of a handler that `detail::GetArg` resolves through
the value store: `bool`, the unsigned integers and the signed integers. -/
inductive ArgType where
  | bool
  | unsigned (T : ScalarType)
  | signed (T : ScalarType)
deriving DecidableEq, Repr

/-- A resolved operand. -/
inductive ArgValue where
  | bool (v : Bool)
  | unsigned (v : Nat)
  | signed (v : Int)
deriving DecidableEq, Repr

/-- The `IR::Type` whose immediate an unsigned integer parameter reads. -/
def ScalarType.irType : ScalarType → IRType
  | .u8 => IRType.U8
  | .u16 => IRType.U16
  | .u32 => IRType.U32
  | .u64 => IRType.U64

/-- Function `detail::GetArg<ArgT, i>` for an unsigned integer `ArgT`: a reference
reads `ctx.value[arg.GetInst()].Get<ArgT>()`, an immediate reads the getter of its
type, which asserts the type. `none` is an exception or a failed assertion; when the
read succeeds the producer was present and the context is unchanged. -/
def GetArgUnsigned (T : ScalarType) (i : Nat) (ctx : ExecutionContext) (inst : Inst) :
    Option Nat :=
  match inst.GetArg i with
  | none => none
  | some (.inst p) => (ctx.index p).1.Get T
  | some (.imm type bits) => if type = T.irType then some bits else none

/-- Function `detail::GetArg<ArgT, i>` for the parameter types that go through the
value store. A signed `ArgT` resolves the unsigned type of the same width and casts. -/
def GetArg (ArgT : ArgType) (i : Nat) (ctx : ExecutionContext) (inst : Inst) :
    Option ArgValue :=
  match ArgT with
  | .bool =>
      (match inst.GetArg i with
       | none => none
       | some (.inst p) => ((ctx.index p).1.GetBool).map ArgValue.bool
       | some (.imm type bits) =>
           if type = IRType.U1 then some (ArgValue.bool (decide (bits ≠ 0))) else none)
  | .unsigned T => (GetArgUnsigned T i ctx inst).map ArgValue.unsigned
  | .signed T =>
      (GetArgUnsigned T i ctx inst).map (fun v => ArgValue.signed (toSigned T.bits v))

/-- The three kinds of handler that `detail::Execute` distinguishes by signature:
the form taking the context and the instruction, a handler returning `void`, and a
handler returning a value. The parameter list is the declared signature. -/
inductive Handler where
  | direct (fn : ExecutionContext → Inst → Option ExecutionContext)
  | void (params : List ArgType)
  | value (params : List ArgType) (fn : List ArgValue → Option SetValue)

/-- The pack expansion of `detail::ExecuteImpl`: parameter `i` is resolved by
`GetArg<parameter_type_i, i>`, starting at index `i`. -/
def resolveArgs (i : Nat) (ctx : ExecutionContext) (inst : Inst) :
    List ArgType → Option (List ArgValue)
  | [] => some []
  | ArgT :: rest =>
      match GetArg ArgT i ctx inst with
      | none => none
      | some a =>
          match resolveArgs (i + 1) ctx inst rest with
          | none => none
          | some as => some (a :: as)

/-- Function `detail::Execute`: the direct form is called as it is; a handler
returning `void` has its operands resolved and stores nothing; a handler returning a
value has `ctx.value[inst]` set to the returned value. -/
def Execute (h : Handler) (ctx : ExecutionContext) (inst : Inst) :
    Option ExecutionContext :=
  match h with
  | .direct fn => fn ctx inst
  | .void params => (resolveArgs 0 ctx inst params).map (fun _ => ctx)
  | .value params fn =>
      let ctx1 := (ctx.index inst.id).2
      match resolveArgs 0 ctx1 inst params with
      | none => none
      | some as =>
          match fn as with
          | none => none
          | some r => some (ctx1.store inst.id (Value.Set r))

/-- The handler `ExecuteAdd64` as bound for dispatch: parameters `(u64, u64, bool)`,
returning `ResultAndNZCV<u64>`. -/
def Add64Handler (padding : Nat) : Handler :=
  Handler.value [.unsigned .u64, .unsigned .u64, .bool] (fun as =>
    match as with
    | [.unsigned a, .unsigned b, .bool carry_in] =>
        some (.resultAndNZCV_u64 (ExecuteAdd64 a b carry_in) padding)
    | _ => none)

/-- The handler `ExecuteSub64` as bound for dispatch: parameters `(u64, u64, bool)`,
returning `ResultAndNZCV<u64>`. -/
def Sub64Handler (padding : Nat) : Handler :=
  Handler.value [.unsigned .u64, .unsigned .u64, .bool] (fun as =>
    match as with
    | [.unsigned a, .unsigned b, .bool carry_in] =>
        some (.resultAndNZCV_u64 (ExecuteSub64 a b carry_in) padding)
    | _ => none)

/-- The handler `ExecuteAdd32` as bound for dispatch: parameters `(u32, u32, bool)`,
returning `ResultAndNZCV<u32>`. -/
def Add32Handler : Handler :=
  Handler.value [.unsigned .u32, .unsigned .u32, .bool] (fun as =>
    match as with
    | [.unsigned a, .unsigned b, .bool carry_in] =>
        some (.resultAndNZCV_u32 (ExecuteAdd32 a b carry_in))
    | _ => none)

/-! ## Instruction streams -/

/-- The handlers that dispatch binds to opcodes: the three handlers of interpreter.cpp
that take the context and the instruction, a handler returning `void`, and a handler
returning a value. -/
inductive Bound where
  | Identity
  | GetCarryFromOp
  | GetOverflowFromOp
  | void (params : List ArgType)
  | value (params : List ArgType) (fn : List ArgValue → Option SetValue)

/-- The handler bound to an opcode, in the form `detail::Execute` receives it. -/
def Bound.handler : Bound → Handler
  | .Identity => Handler.direct ExecuteIdentity
  | .GetCarryFromOp => Handler.direct ExecuteGetCarryFromOp
  | .GetOverflowFromOp => Handler.direct ExecuteGetOverflowFromOp
  | .void params => Handler.void params
  | .value params fn => Handler.value params fn

/-- Modelled from the spec: the block-execution loop is not among the sources; it
feeds the instructions of a stream one at a time, in order, to dispatch, against the
single context of the run, and a fatal violation stops the stream. -/
def executeStream (ctx : ExecutionContext) : List (Bound × Inst) → Option ExecutionContext
  | [] => some ctx
  | (b, inst) :: rest =>
      match Execute b.handler ctx inst with
      | none => none
      | some ctx' => executeStream ctx' rest

/-- The producers that the reference operands of an instruction name. -/
def Inst.references (inst : Inst) : List InstId :=
  inst.args.filterMap (fun a =>
    match a with
    | .inst p => some p
    | .imm _ _ => none)

/-- Every reference operand of every instruction of the stream names an instruction
that comes earlier in the stream; `done` lists the instructions already executed. -/
def referencesNameEarlier (done : List InstId) : List Inst → Bool
  | [] => true
  | inst :: rest =>
      inst.references.all (fun p => done.contains p)
        && referencesNameEarlier (inst.id :: done) rest

/-- A step from `ctx` to `ctx'` that executes `inst` writes at most the key of
`inst`: every other key is the same in both contexts. -/
def writesAtMostOwnKey (ctx ctx' : ExecutionContext) (inst : Inst) : Prop :=
  ∀ j, j ≠ inst.id → ctx'.values j = ctx.values j

/-- The data-model invariant of a stream run from `ctx`: when an instruction
executes, every producer that one of its reference operands names is present in the
context; checked step by step along the run, up to the first fatal violation. -/
def producersPresent (ctx : ExecutionContext) : List (Bound × Inst) → Bool
  | [] => true
  | (b, inst) :: rest =>
      inst.references.all (fun p => (ctx.values p).isSome)
        && (match Execute b.handler ctx inst with
            | none => true
            | some ctx' => producersPresent ctx' rest)

/-- Whether the bound handler stores a value for its instruction: every handler but
one returning `void`. -/
def Bound.returnsValue : Bound → Bool
  | .void _ => false
  | _ => true

/-- Every reference operand of every instruction of the stream names an instruction
that comes earlier in the stream and whose handler returns a value; `done` lists the
value-producing instructions already executed. -/
def referencesNameEarlierProducers (done : List InstId) : List (Bound × Inst) → Bool
  | [] => true
  | (b, inst) :: rest =>
      inst.references.all (fun p => done.contains p)
        && referencesNameEarlierProducers
            (if b.returnsValue then inst.id :: done else done) rest

/-! ## Reference readings used by the statements -/

/-- Architectural reference: the upper 64 bits of the 128-bit two's-complement
product of two 64-bit patterns read as signed integers. -/
def signedMultiplyHighReference (a b : Nat) : Nat :=
  ((toSigned 64 a * toSigned 64 b) / 2 ^ 64 % 2 ^ 64).toNat

/-- The carry-in as an integer summand. -/
def boolToInt (b : Bool) : Int := if b then 1 else 0

/-! ## Bit-level lemmas -/

theorem testBit_31_of_lt {x : Nat} (h : x < 2 ^ 32) :
    x.testBit 31 = decide (2 ^ 31 ≤ x) := by
  rw [Nat.testBit_to_div_mod]
  norm_num at h ⊢
  omega

theorem testBit_63_of_lt {x : Nat} (h : x < 2 ^ 64) :
    x.testBit 63 = decide (2 ^ 63 ≤ x) := by
  rw [Nat.testBit_to_div_mod]
  norm_num at h ⊢
  omega

theorem boolToNat_le_one (c : Bool) : boolToNat c ≤ 1 := by
  cases c <;> simp [boolToNat]

theorem boolToInt_eq_cast (c : Bool) : boolToInt c = (boolToNat c : Int) := by
  cases c <;> simp [boolToNat, boolToInt]

theorem bitNot_of_lt {w x : Nat} (h : x < 2 ^ w) : bitNot w x = 2 ^ w - (x + 1) := by
  unfold bitNot
  rw [Nat.mod_eq_of_lt h]
  omega

/-- The overflow flag of `ExecuteAdd32` is signed overflow of `a + b + carry_in`. -/
theorem add32_overflow_iff (a b : Nat) (c : Bool) (ha : a < 2 ^ 32) (hb : b < 2 ^ 32) :
    (ExecuteAdd32 a b c).overflow = true ↔
      (toSigned 32 a + toSigned 32 b + boolToInt c < -2 ^ 31 ∨
        2 ^ 31 ≤ toSigned 32 a + toSigned 32 b + boolToInt c) := by
  have hx : a ^^^ b < 2 ^ 32 := Nat.xor_lt_two_pow ha hb
  have hr : (a + b + boolToNat c) % 2 ^ 32 < 2 ^ 32 := Nat.mod_lt _ (by norm_num)
  simp only [ExecuteAdd32, Common.MostSignificantBit, bitNot_of_lt hx, Nat.testBit_and,
    Nat.testBit_xor, Nat.testBit_two_pow_sub_succ hx]
  rw [show (32 - 1 : Nat) = 31 from rfl, testBit_31_of_lt ha, testBit_31_of_lt hb,
    testBit_31_of_lt hr, boolToInt_eq_cast]
  have hc := boolToNat_le_one c
  generalize boolToNat c = k at *
  simp only [toSigned]
  norm_num at ha hb hr ⊢
  split_ifs <;> omega

/-- The overflow flag of `ExecuteAdd64` is signed overflow of `a + b + carry_in`. -/
theorem add64_overflow_iff (a b : Nat) (c : Bool) (ha : a < 2 ^ 64) (hb : b < 2 ^ 64) :
    (ExecuteAdd64 a b c).overflow = true ↔
      (toSigned 64 a + toSigned 64 b + boolToInt c < -2 ^ 63 ∨
        2 ^ 63 ≤ toSigned 64 a + toSigned 64 b + boolToInt c) := by
  have hx : a ^^^ b < 2 ^ 64 := Nat.xor_lt_two_pow ha hb
  have hr : (a + b + boolToNat c) % 2 ^ 64 < 2 ^ 64 := Nat.mod_lt _ (by norm_num)
  simp only [ExecuteAdd64, Common.MostSignificantBit, bitNot_of_lt hx, Nat.testBit_and,
    Nat.testBit_xor, Nat.testBit_two_pow_sub_succ hx]
  rw [show (64 - 1 : Nat) = 63 from rfl, testBit_63_of_lt ha, testBit_63_of_lt hb,
    testBit_63_of_lt hr, boolToInt_eq_cast]
  have hc := boolToNat_le_one c
  generalize boolToNat c = k at *
  simp only [toSigned]
  norm_num at ha hb hr ⊢
  split_ifs <;> omega

theorem sub32_result_int (a b : Nat) (c : Bool) :
    ((ExecuteSub32 a b c).result : Int) = ((a : Int) - b - 1 + boolToInt c) % 2 ^ 32 := by
  simp only [ExecuteSub32, bitNot, boolToInt_eq_cast]
  have hc := boolToNat_le_one c
  generalize boolToNat c = k at *
  norm_num
  omega

theorem sub64_result_int (a b : Nat) (c : Bool) :
    ((ExecuteSub64 a b c).result : Int) = ((a : Int) - b - 1 + boolToInt c) % 2 ^ 64 := by
  simp only [ExecuteSub64, bitNot, boolToInt_eq_cast]
  have hc := boolToNat_le_one c
  generalize boolToNat c = k at *
  norm_num
  omega

/-- With a nonzero shift the carry of `ExecuteLogicalShiftLeft32` is bit 0 of a left
shift by `shift + 32`, which is at least the register width: it is always false. -/
theorem ExecuteLogicalShiftLeft32_carry_false_of_shift_ne_zero (value shift : Nat)
    (carry_in : Bool) (h : shift ≠ 0) :
    (ExecuteLogicalShiftLeft32 value shift carry_in).carry = false := by
  simp [ExecuteLogicalShiftLeft32, h, Safe.LogicalShiftLeft, Common.Bit]

/-- Bit 0 of an in-range logical right shift by `k` is bit `k` of the value. -/
theorem LogicalShiftRight_bit_zero (value : Nat) (k : Int) (hk0 : 0 ≤ k) (hk : k < 32) :
    Common.Bit 0 (Safe.LogicalShiftRight 32 value k) = value.testBit k.toNat := by
  have h1 : ¬ ((32 : Int) ≤ k) := by omega
  have h2 : ¬ (k < 0) := by omega
  simp [Safe.LogicalShiftRight, Common.Bit, h1, h2]

/-- Bit 0 of an in-range arithmetic right shift by `k` is bit `k` of the value. -/
theorem ArithmeticShiftRight_bit_zero (value : Nat) (k : Int) (hk0 : 0 ≤ k) (hk : k < 32) :
    Common.Bit 0 (Safe.ArithmeticShiftRight 32 value k) = value.testBit k.toNat := by
  obtain ⟨n, rfl⟩ := Int.eq_ofNat_of_zero_le hk0
  have hn : n < 32 := by omega
  have h1 : ¬ ((n : Int) ≥ ((32 : Nat) : Int)) := by omega
  have h2 : ¬ ((n : Int) < 0) := by omega
  simp only [Safe.ArithmeticShiftRight, Common.Bit, h1, h2, if_false, Int.toNat_ofNat]
  rw [Nat.testBit_to_div_mod, Nat.testBit_to_div_mod, Int.shiftRight_eq_div_pow]
  have hq : ((value : Int) / ((2 ^ n : Nat) : Int)) = ((value / 2 ^ n : Nat) : Int) := by
    push_cast; rfl
  have hp : (2 : Int) ^ 32 = (2 * 2 ^ (31 - n)) * ((2 ^ n : Nat) : Int) := by
    have hpn : (2 : Int) ^ (31 - n + n + 1) = (2 * 2 ^ (31 - n)) * 2 ^ n := by
      rw [pow_succ, pow_add]
      ring
    have e : 31 - n + n + 1 = 32 := by omega
    rw [e] at hpn
    rw [hpn]
    push_cast
    rfl
  have hne : (((2 ^ n : Nat) : Int)) ≠ 0 := by positivity
  have hsub : ((value : Int) - 2 ^ 32) / ((2 ^ n : Nat) : Int)
      = ((value / 2 ^ n : Nat) : Int) - 2 * 2 ^ (31 - n) := by
    rw [sub_eq_add_neg, hp, ← neg_mul, Int.add_mul_ediv_right _ _ hne, hq]
    ring
  simp only [toSigned]
  split
  · rw [hq]
    generalize value / 2 ^ n = q
    simp
    omega
  · rw [hsub]
    generalize value / 2 ^ n = q
    generalize (2 : Int) ^ (31 - n) = m
    simp
    omega

/-- Carry of `ExecuteLogicalShiftRight32` for a nonzero shift. -/
theorem lsr32_carry (value shift : Nat) (carry_in : Bool) (h : 1 ≤ shift) :
    (ExecuteLogicalShiftRight32 value shift carry_in).carry
      = (if shift ≤ 32 then value.testBit (shift - 1) else false) := by
  have h0 : shift ≠ 0 := by omega
  simp only [ExecuteLogicalShiftRight32, h0, if_false]
  split
  · rw [LogicalShiftRight_bit_zero value _ (by omega) (by omega)]
    congr 1
    omega
  · have hge : (32 : Int) ≤ (shift : Int) - 1 := by omega
    simp [Safe.LogicalShiftRight, Common.Bit, hge]

/-- Carry of `ExecuteArithmeticShiftRight32` for a nonzero shift. -/
theorem asr32_carry (value shift : Nat) (carry_in : Bool) (h : 1 ≤ shift) :
    (ExecuteArithmeticShiftRight32 value shift carry_in).carry
      = (if shift ≤ 32 then value.testBit (shift - 1) else value.testBit 31) := by
  have h0 : shift ≠ 0 := by omega
  simp only [ExecuteArithmeticShiftRight32, h0, if_false]
  split
  · rw [ArithmeticShiftRight_bit_zero value _ (by omega) (by omega)]
    congr 1
    omega
  · have hge : ((shift : Int) - 1 ≥ ((32 : Nat) : Int)) := by omega
    have e : Common.MostSignificantBit 32 value = value.testBit 31 := rfl
    simp only [Safe.ArithmeticShiftRight, Common.Bit, hge, if_true, e]
    cases value.testBit 31
    · rfl
    · simp [Nat.testBit_zero]

/-! ## Add and subtract -/

/-- C1: the carry flag of `ExecuteAdd32` and `ExecuteAdd64` is not the unsigned
carry-out when `b` is all ones and `carry_in` is set: at `a = 0` the unbounded sum
reaches `2 ^ 32` (resp. `2 ^ 64`) and the returned carry flag is false. -/
theorem ExecuteAdd_carry_lost_when_b_plus_carry_wraps :
    ((ExecuteAdd32 0 0xFFFFFFFF true).carry = false ∧ 2 ^ 32 ≤ 0 + 0xFFFFFFFF + 1) ∧
    ((ExecuteAdd64 0 0xFFFFFFFFFFFFFFFF true).carry = false ∧
      2 ^ 64 ≤ 0 + 0xFFFFFFFFFFFFFFFF + 1) := by
  decide

/-- C2: for 32-bit (resp. 64-bit) operands the overflow flag of `ExecuteAdd32`
(resp. `ExecuteAdd64`) is true exactly when the sum of the operands read as signed
integers, plus the carry-in, lies outside `[-2^31, 2^31)` (resp. `[-2^63, 2^63)`). -/
theorem ExecuteAdd_overflow_iff_signed_sum_out_of_range (a b : Nat) (carry_in : Bool) :
    (a < 2 ^ 32 → b < 2 ^ 32 →
      ((ExecuteAdd32 a b carry_in).overflow = true ↔
        (toSigned 32 a + toSigned 32 b + boolToInt carry_in < -2 ^ 31 ∨
          2 ^ 31 ≤ toSigned 32 a + toSigned 32 b + boolToInt carry_in))) ∧
    (a < 2 ^ 64 → b < 2 ^ 64 →
      ((ExecuteAdd64 a b carry_in).overflow = true ↔
        (toSigned 64 a + toSigned 64 b + boolToInt carry_in < -2 ^ 63 ∨
          2 ^ 63 ≤ toSigned 64 a + toSigned 64 b + boolToInt carry_in))) :=
  ⟨add32_overflow_iff a b carry_in, add64_overflow_iff a b carry_in⟩

/-- Witness of C2 at `a = 0x7FFFFFFF`, `b = 1`, `carry_in = false`: both widths are
in range there, the 32-bit sum overflows and the 64-bit sum does not. -/
theorem ExecuteAdd_overflow_iff_signed_sum_out_of_range_witness :
    (0x7FFFFFFF < 2 ^ 32 ∧ 1 < 2 ^ 32 ∧
      ((ExecuteAdd32 0x7FFFFFFF 1 false).overflow = true ↔
        (toSigned 32 0x7FFFFFFF + toSigned 32 1 + boolToInt false < -2 ^ 31 ∨
          2 ^ 31 ≤ toSigned 32 0x7FFFFFFF + toSigned 32 1 + boolToInt false))) ∧
    (0x7FFFFFFF < 2 ^ 64 ∧ 1 < 2 ^ 64 ∧
      ((ExecuteAdd64 0x7FFFFFFF 1 false).overflow = true ↔
        (toSigned 64 0x7FFFFFFF + toSigned 64 1 + boolToInt false < -2 ^ 63 ∨
          2 ^ 63 ≤ toSigned 64 0x7FFFFFFF + toSigned 64 1 + boolToInt false))) :=
  ⟨⟨by decide, by decide,
      (ExecuteAdd_overflow_iff_signed_sum_out_of_range 0x7FFFFFFF 1 false).1
        (by decide) (by decide)⟩,
    ⟨by decide, by decide,
      (ExecuteAdd_overflow_iff_signed_sum_out_of_range 0x7FFFFFFF 1 false).2
        (by decide) (by decide)⟩⟩

/-- C3: `ExecuteSub32 a b carry_in` returns the same result and the same four flags
as `ExecuteAdd32 a (NOT b) carry_in`, and `ExecuteSub64` likewise equals
`ExecuteAdd64 a (NOT b) carry_in`. -/
theorem ExecuteSub_eq_ExecuteAdd_bitNot (a b : Nat) (carry_in : Bool) :
    ExecuteSub32 a b carry_in = ExecuteAdd32 a (bitNot 32 b) carry_in ∧
    ExecuteSub64 a b carry_in = ExecuteAdd64 a (bitNot 64 b) carry_in :=
  ⟨rfl, rfl⟩

/-- C4: the carry flag of the plain subtract is not the no-borrow flag when `b = 0`:
`ExecuteSub32 5 0 true` and `ExecuteSub64 5 0 true` return carry false although
`5 ≥ 0` means that no borrow occurs. -/
theorem ExecuteSub_carry_false_at_zero_subtrahend :
    ((ExecuteSub32 5 0 true).carry = false ∧ (0 : Nat) ≤ 5) ∧
    ((ExecuteSub64 5 0 true).carry = false ∧ (0 : Nat) ≤ 5) := by
  decide

/-- C5: the result of `ExecuteSub32 a b carry_in` is `(a - b - 1 + carry_in) mod 2^32`,
which for `carry_in = true` is `(a - b) mod 2^32`; `ExecuteSub64` is the same
modulo `2^64`. -/
theorem ExecuteSub_result_eq_wrapping_difference (a b : Nat) (carry_in : Bool) :
    (((ExecuteSub32 a b carry_in).result : Int)
        = ((a : Int) - b - 1 + boolToInt carry_in) % 2 ^ 32 ∧
      ((ExecuteSub32 a b true).result : Int) = ((a : Int) - b) % 2 ^ 32) ∧
    (((ExecuteSub64 a b carry_in).result : Int)
        = ((a : Int) - b - 1 + boolToInt carry_in) % 2 ^ 64 ∧
      ((ExecuteSub64 a b true).result : Int) = ((a : Int) - b) % 2 ^ 64) := by
  refine ⟨⟨sub32_result_int a b carry_in, ?_⟩, ⟨sub64_result_int a b carry_in, ?_⟩⟩
  · rw [sub32_result_int a b true]; simp [boolToInt]
  · rw [sub64_result_int a b true]; simp [boolToInt]

/-- C6: `ExecuteAdd32` reproduces the three reference vectors: the no-op case, the
unsigned wraparound and the signed overflow. -/
theorem ExecuteAdd32_reference_vectors :
    ExecuteAdd32 0 0 false =
      { result := 0, negative := false, zero := true, carry := false,
        overflow := false } ∧
    ExecuteAdd32 0xFFFFFFFF 1 false =
      { result := 0, negative := false, zero := true, carry := true,
        overflow := false } ∧
    ExecuteAdd32 0x7FFFFFFF 1 false =
      { result := 0x80000000, negative := true, zero := false, carry := false,
        overflow := true } := by
  decide

/-! ## Multiply high -/

/-- C7: `ExecuteSignedMultiplyHigh64` is not the upper half of the signed 128-bit
product at the boundary pairs of the claim: at `(-1, 1)` it returns 0 where the
product `-1` has upper half `0xFFFFFFFFFFFFFFFF`; at `(-1, -1)` it returns
`0xFFFFFFFFFFFFFFFF` where the product `1` has upper half 0; at `(INT64_MIN, -1)` it
returns `0x8000000000000000` where the product `2^63` has upper half 0. -/
theorem ExecuteSignedMultiplyHigh64_differs_from_signed_product :
    (ExecuteSignedMultiplyHigh64 0xFFFFFFFFFFFFFFFF 1 = 0 ∧
      signedMultiplyHighReference 0xFFFFFFFFFFFFFFFF 1 = 0xFFFFFFFFFFFFFFFF) ∧
    (ExecuteSignedMultiplyHigh64 0xFFFFFFFFFFFFFFFF 0xFFFFFFFFFFFFFFFF
        = 0xFFFFFFFFFFFFFFFF ∧
      signedMultiplyHighReference 0xFFFFFFFFFFFFFFFF 0xFFFFFFFFFFFFFFFF = 0) ∧
    (ExecuteSignedMultiplyHigh64 0x8000000000000000 0xFFFFFFFFFFFFFFFF
        = 0x8000000000000000 ∧
      signedMultiplyHighReference 0x8000000000000000 0xFFFFFFFFFFFFFFFF = 0) := by
  decide

/-! ## Shifts and rotates -/

/-- C8: with `shift = 0` the four 32-bit shift handlers return the value and the
incoming carry unchanged, and the four 64-bit shift handlers return their 64-bit
value unchanged. -/
theorem ExecuteShift_by_zero_is_identity (value : Nat) (carry_in : Bool) :
    (ExecuteLogicalShiftLeft32 value 0 carry_in = { result := value, carry := carry_in } ∧
      ExecuteLogicalShiftRight32 value 0 carry_in
        = { result := value, carry := carry_in } ∧
      ExecuteArithmeticShiftRight32 value 0 carry_in
        = { result := value, carry := carry_in } ∧
      ExecuteRotateRight32 value 0 carry_in = { result := value, carry := carry_in }) ∧
    (value < 2 ^ 64 →
      ExecuteLogicalShiftLeft64 value 0 = value ∧
      ExecuteLogicalShiftRight64 value 0 = value ∧
      ExecuteArithmeticShiftRight64 value 0 = value ∧
      ExecuteRotateRight64 value 0 = value) := by
  refine ⟨⟨rfl, rfl, rfl, rfl⟩, fun h => ⟨?_, ?_, ?_, ?_⟩⟩
  · have h2 : value % 2 ^ 64 = value := Nat.mod_eq_of_lt h
    simpa [ExecuteLogicalShiftLeft64, Safe.LogicalShiftLeft] using h2
  · simp [ExecuteLogicalShiftRight64, Safe.LogicalShiftRight]
  · simp only [ExecuteArithmeticShiftRight64, Safe.ArithmeticShiftRight, toSigned,
      Int.shiftRight_eq_div_pow]
    norm_num at h ⊢
    split_ifs <;> omega
  · simp [ExecuteRotateRight64, Common.RotateRight]

/-- Witness of C8 at `value = 0x8000000000000001`, `carry_in = true`. -/
theorem ExecuteShift_by_zero_is_identity_witness :
    0x8000000000000001 < 2 ^ 64 ∧
    (ExecuteLogicalShiftLeft64 0x8000000000000001 0 = 0x8000000000000001 ∧
      ExecuteLogicalShiftRight64 0x8000000000000001 0 = 0x8000000000000001 ∧
      ExecuteArithmeticShiftRight64 0x8000000000000001 0 = 0x8000000000000001 ∧
      ExecuteRotateRight64 0x8000000000000001 0 = 0x8000000000000001) :=
  ⟨by decide, (ExecuteShift_by_zero_is_identity 0x8000000000000001 true).2 (by decide)⟩

/-- C9: the carry-out of `ExecuteLogicalShiftLeft32` is not the last bit shifted out:
for `value = 0x80000000` and `shift = 1` bit `32 - 1` of the value is set and the
returned carry is false. -/
theorem ExecuteLogicalShiftLeft32_carry_misses_shifted_out_bit :
    (ExecuteLogicalShiftLeft32 0x80000000 1 false).carry = false ∧
    Nat.testBit 0x80000000 (32 - 1) = true := by
  decide

/-- C10: for every shift of at least 1 the carry-out of `ExecuteLogicalShiftRight32`
is bit `shift - 1` of the value when `shift ≤ 32` and false beyond, and the
carry-out of `ExecuteArithmeticShiftRight32` is bit `shift - 1` of the value when
`shift ≤ 32` and bit 31 of the value beyond. -/
theorem ExecuteShiftRight32_carry_is_last_bit_shifted_out (value shift : Nat)
    (carry_in : Bool) (h : 1 ≤ shift) :
    (ExecuteLogicalShiftRight32 value shift carry_in).carry
      = (if shift ≤ 32 then value.testBit (shift - 1) else false) ∧
    (ExecuteArithmeticShiftRight32 value shift carry_in).carry
      = (if shift ≤ 32 then value.testBit (shift - 1) else value.testBit 31) :=
  ⟨lsr32_carry value shift carry_in h, asr32_carry value shift carry_in h⟩

/-- Witness of C10 at `value = 0x80000001` for `shift = 1` and for `shift = 33`. -/
theorem ExecuteShiftRight32_carry_is_last_bit_shifted_out_witness :
    (1 ≤ 1 ∧
      (ExecuteLogicalShiftRight32 0x80000001 1 false).carry
        = (if 1 ≤ 32 then Nat.testBit 0x80000001 (1 - 1) else false) ∧
      (ExecuteArithmeticShiftRight32 0x80000001 1 false).carry
        = (if 1 ≤ 32 then Nat.testBit 0x80000001 (1 - 1)
            else Nat.testBit 0x80000001 31)) ∧
    (1 ≤ 33 ∧
      (ExecuteLogicalShiftRight32 0x80000001 33 false).carry
        = (if 33 ≤ 32 then Nat.testBit 0x80000001 (33 - 1) else false) ∧
      (ExecuteArithmeticShiftRight32 0x80000001 33 false).carry
        = (if 33 ≤ 32 then Nat.testBit 0x80000001 (33 - 1)
            else Nat.testBit 0x80000001 31)) :=
  ⟨⟨by decide,
      ExecuteShiftRight32_carry_is_last_bit_shifted_out 0x80000001 1 false (by decide)⟩,
    ⟨by decide,
      ExecuteShiftRight32_carry_is_last_bit_shifted_out 0x80000001 33 false (by decide)⟩⟩

/-! ## Register extraction -/

/-- The or of the high part shifted left by `w - s` and the low part shifted right by
`s` is the double-width concatenation shifted right by `s`, cut to `w` bits. -/
theorem shift_concat_core (w lo hi s : Nat) (hlo : lo < 2 ^ w) (hs : s ≤ w) :
    (hi <<< (w - s)) % 2 ^ w ||| lo >>> s = ((hi * 2 ^ w + lo) >>> s) % 2 ^ w := by
  apply Nat.eq_of_testBit_eq
  intro i
  rw [Nat.testBit_or, Nat.testBit_mod_two_pow, Nat.testBit_mod_two_pow, Nat.testBit_shiftRight,
    Nat.testBit_shiftRight, Nat.testBit_shiftLeft, Nat.mul_comm hi,
    Nat.testBit_mul_pow_two_add hi hlo]
  by_cases hi_lt : i < w
  · by_cases hsi : s + i < w
    · have h1 : ¬ (i ≥ w - s) := by omega
      simp [hi_lt, hsi, h1]
    · have h1 : i ≥ w - s := by omega
      have h2 : lo.testBit (s + i) = false :=
        Nat.testBit_lt_two_pow
          (lt_of_lt_of_le hlo (Nat.pow_le_pow_right (by norm_num) (by omega)))
      have h3 : i - (w - s) = s + i - w := by omega
      simp [hi_lt, hsi, h1, h2, h3]
  · have h2 : lo.testBit (s + i) = false :=
      Nat.testBit_lt_two_pow
        (lt_of_lt_of_le hlo (Nat.pow_le_pow_right (by norm_num) (by omega)))
    simp [hi_lt, h2]

theorem extractRegister32_eq (lo hi s : Nat) (hlo : lo < 2 ^ 32) (hs : s ≤ 32) :
    ExecuteExtractRegister32 lo hi s = ((hi * 2 ^ 32 + lo) >>> s) % 2 ^ 32 := by
  rw [← shift_concat_core 32 lo hi s hlo hs]
  unfold ExecuteExtractRegister32 Safe.LogicalShiftLeft Safe.LogicalShiftRight
  by_cases h0 : s = 0
  · subst h0; simp [Nat.shiftLeft_eq]
  · by_cases h32 : s = 32
    · subst h32
      simp
      rw [Nat.shiftRight_eq_div_pow, Nat.div_eq_of_lt hlo]
      simp
    · have a1 : ¬ ((32 : Int) - (s : Int) ≥ ((32 : Nat) : Int)) := by omega
      have a2 : ¬ ((32 : Int) - (s : Int) < 0) := by omega
      have a3 : ¬ ((s : Int) ≥ ((32 : Nat) : Int)) := by omega
      have a4 : ¬ ((s : Int) < 0) := by omega
      have a5 : ((32 : Int) - (s : Int)).toNat = 32 - s := by omega
      simp only [a1, a2, a3, a4, a5, if_false, Int.toNat_ofNat]

theorem extractRegister64_eq (lo hi s : Nat) (hlo : lo < 2 ^ 64) (hs : s ≤ 64) :
    ExecuteExtractRegister64 lo hi s = ((hi * 2 ^ 64 + lo) >>> s) % 2 ^ 64 := by
  rw [← shift_concat_core 64 lo hi s hlo hs]
  unfold ExecuteExtractRegister64 Safe.LogicalShiftLeft Safe.LogicalShiftRight
  by_cases h0 : s = 0
  · subst h0; simp [Nat.shiftLeft_eq]
  · by_cases h64 : s = 64
    · subst h64
      simp
      rw [Nat.shiftRight_eq_div_pow, Nat.div_eq_of_lt hlo]
      simp
    · have a1 : ¬ ((64 : Int) - (s : Int) ≥ ((64 : Nat) : Int)) := by omega
      have a2 : ¬ ((64 : Int) - (s : Int) < 0) := by omega
      have a3 : ¬ ((s : Int) ≥ ((64 : Nat) : Int)) := by omega
      have a4 : ¬ ((s : Int) < 0) := by omega
      have a5 : ((64 : Int) - (s : Int)).toNat = 64 - s := by omega
      simp only [a1, a2, a3, a4, a5, if_false, Int.toNat_ofNat]

/-- C11: for `0 ≤ shift ≤ 32` `ExecuteExtractRegister32 lo hi shift` is the low 32 bits
of the concatenation `hi * 2^32 + lo` shifted right by `shift`, so `shift = 0` returns
`lo`, `shift = 32` returns `hi`, and `(0x12345678, 0x9ABCDEF0, 8)` returns
`0xF0123456`; `ExecuteExtractRegister64` is the same for `0 ≤ shift ≤ 64` over the
128-bit concatenation. -/
theorem ExecuteExtractRegister_eq_shifted_concatenation (lo hi shift : Nat) :
    (lo < 2 ^ 32 → shift ≤ 32 →
      ExecuteExtractRegister32 lo hi shift = ((hi * 2 ^ 32 + lo) >>> shift) % 2 ^ 32) ∧
    (lo < 2 ^ 32 → ExecuteExtractRegister32 lo hi 0 = lo) ∧
    (lo < 2 ^ 32 → hi < 2 ^ 32 → ExecuteExtractRegister32 lo hi 32 = hi) ∧
    ExecuteExtractRegister32 0x12345678 0x9ABCDEF0 8 = 0xF0123456 ∧
    (lo < 2 ^ 64 → shift ≤ 64 →
      ExecuteExtractRegister64 lo hi shift = ((hi * 2 ^ 64 + lo) >>> shift) % 2 ^ 64) := by
  refine ⟨extractRegister32_eq lo hi shift, ?_, ?_, by decide,
    extractRegister64_eq lo hi shift⟩
  · intro hlo
    rw [extractRegister32_eq lo hi 0 hlo (by omega), Nat.shiftRight_zero]
    norm_num at hlo ⊢
    omega
  · intro hlo hhi
    rw [extractRegister32_eq lo hi 32 hlo (by omega), Nat.shiftRight_eq_div_pow]
    norm_num at hlo hhi ⊢
    omega

/-- Witness of C11 at `lo = 0x12345678`, `hi = 0x9ABCDEF0`, `shift = 8`. -/
theorem ExecuteExtractRegister_eq_shifted_concatenation_witness :
    (0x12345678 < 2 ^ 32 ∧ 8 ≤ 32 ∧
      ExecuteExtractRegister32 0x12345678 0x9ABCDEF0 8
        = ((0x9ABCDEF0 * 2 ^ 32 + 0x12345678) >>> 8) % 2 ^ 32) ∧
    (0x12345678 < 2 ^ 32 ∧ ExecuteExtractRegister32 0x12345678 0x9ABCDEF0 0 = 0x12345678) ∧
    (0x12345678 < 2 ^ 32 ∧ 0x9ABCDEF0 < 2 ^ 32 ∧
      ExecuteExtractRegister32 0x12345678 0x9ABCDEF0 32 = 0x9ABCDEF0) ∧
    (0x12345678 < 2 ^ 64 ∧ 8 ≤ 64 ∧
      ExecuteExtractRegister64 0x12345678 0x9ABCDEF0 8
        = ((0x9ABCDEF0 * 2 ^ 64 + 0x12345678) >>> 8) % 2 ^ 64) :=
  ⟨⟨by decide, by decide,
      (ExecuteExtractRegister_eq_shifted_concatenation 0x12345678 0x9ABCDEF0 8).1
        (by decide) (by decide)⟩,
    ⟨by decide,
      (ExecuteExtractRegister_eq_shifted_concatenation 0x12345678 0x9ABCDEF0 8).2.1
        (by decide)⟩,
    ⟨by decide, by decide,
      (ExecuteExtractRegister_eq_shifted_concatenation 0x12345678 0x9ABCDEF0 8).2.2.1
        (by decide) (by decide)⟩,
    ⟨by decide, by decide,
      (ExecuteExtractRegister_eq_shifted_concatenation 0x12345678 0x9ABCDEF0 8).2.2.2.2
        (by decide) (by decide)⟩⟩

/-! ## Rotate right extended -/

theorem rotateRightExtended_bits (value : Nat) (c : Bool) (hv : value < 2 ^ 32) (i : Nat) :
    (ExecuteRotateRightExtended value c).result.testBit i
      = (if i = 31 then c else (value >>> 1).testBit i) := by
  have hmask : bitNot 32 (1 <<< 31) = 2 ^ 31 - 1 := by decide
  have hx : value >>> 1 < 2 ^ 31 := by
    rw [Nat.shiftRight_eq_div_pow]
    norm_num at hv ⊢
    omega
  have hhigh : ∀ j, 31 ≤ j → (value >>> 1).testBit j = false := fun j hj =>
    Nat.testBit_lt_two_pow (lt_of_lt_of_le hx (Nat.pow_le_pow_right (by norm_num) hj))
  simp only [ExecuteRotateRightExtended, Common.ModifyBit, hmask, Nat.testBit_or,
    Nat.testBit_and, Nat.testBit_two_pow_sub_one]
  have hc : (boolToNat c <<< 31 % 2 ^ 32).testBit i = (decide (i = 31) && c) := by
    cases c
    · simp [boolToNat]
    · have e : boolToNat true <<< 31 % 2 ^ 32 = 2 ^ 31 := by decide
      rw [e, Nat.testBit_two_pow]
      simp [eq_comm]
  rw [hc]
  by_cases h31 : i = 31
  · subst h31
    simp
  · by_cases hlt : i < 31
    · simp [h31, hlt]
    · have := hhigh i (by omega)
      simp [h31, hlt, this]

/-- C12: for a 32-bit value the result of `ExecuteRotateRightExtended` is `value >> 1`
with bit 31 replaced by `carry_in`, the carry-out is bit 0 of the value, and
`ExecuteRotateRightExtended 0x00000001 true` is `{0x80000000, true}`. -/
theorem ExecuteRotateRightExtended_folds_carry_in (value : Nat) (carry_in : Bool)
    (hv : value < 2 ^ 32) :
    (∀ i, (ExecuteRotateRightExtended value carry_in).result.testBit i
      = (if i = 31 then carry_in else (value >>> 1).testBit i)) ∧
    (ExecuteRotateRightExtended value carry_in).carry = value.testBit 0 ∧
    ExecuteRotateRightExtended 0x00000001 true = { result := 0x80000000, carry := true } :=
  ⟨rotateRightExtended_bits value carry_in hv, rfl, by decide⟩

/-- Witness of C12 at `value = 0x00000001`, `carry_in = true`. -/
theorem ExecuteRotateRightExtended_folds_carry_in_witness :
    0x00000001 < 2 ^ 32 ∧
    ((∀ i, (ExecuteRotateRightExtended 0x00000001 true).result.testBit i
      = (if i = 31 then true else (0x00000001 >>> 1).testBit i)) ∧
    (ExecuteRotateRightExtended 0x00000001 true).carry = Nat.testBit 0x00000001 0 ∧
    ExecuteRotateRightExtended 0x00000001 true
      = { result := 0x80000000, carry := true }) :=
  ⟨by decide, ExecuteRotateRightExtended_folds_carry_in 0x00000001 true (by decide)⟩

/-! ## Signed division -/

theorem tdiv_natCast (m n : Nat) : ((m : Int)).tdiv (n : Int) = ((m / n : Nat) : Int) :=
  (Int.ofNat_tdiv m n).symm

/-- The C++ quotient truncates toward zero: the remainder is smaller than the divisor
in absolute value and is zero or has the sign of the dividend. -/
theorem tdiv_truncates (a b : Int) (hb : b ≠ 0) :
    ∃ r : Int, a = a.tdiv b * b + r ∧ |r| < |b| ∧
      (r = 0 ∨ (0 < r ∧ 0 < a) ∨ (r < 0 ∧ a < 0)) := by
  obtain ⟨m, rfl | rfl⟩ := Int.eq_nat_or_neg a <;>
  obtain ⟨n, rfl | rfl⟩ := Int.eq_nat_or_neg b
  all_goals
    have hn : 0 < n := by
      rcases Nat.eq_zero_or_pos n with h | h
      · subst h; simp at hb
      · exact h
    have hdm : n * (m / n) + m % n = m := Nat.div_add_mod m n
    have hlt : m % n < n := Nat.mod_lt m hn
    have hle : m % n ≤ m := Nat.mod_le m n
    have hdmi : (n : Int) * ((m / n : Nat) : Int) + ((m % n : Nat) : Int) = (m : Int) := by
      exact_mod_cast hdm
    simp only [Int.neg_tdiv, Int.tdiv_neg, tdiv_natCast, neg_neg, abs_neg, Nat.abs_cast]
  · refine ⟨((m % n : Nat) : Int), by linarith,
      by simp only [Nat.abs_cast]; exact_mod_cast hlt, ?_⟩
    omega
  · refine ⟨((m % n : Nat) : Int), by linarith,
      by simp only [Nat.abs_cast]; exact_mod_cast hlt, ?_⟩
    omega
  · refine ⟨-((m % n : Nat) : Int), by linarith,
      by simp only [abs_neg, Nat.abs_cast]; exact_mod_cast hlt, ?_⟩
    omega
  · refine ⟨-((m % n : Nat) : Int), by linarith,
      by simp only [abs_neg, Nat.abs_cast]; exact_mod_cast hlt, ?_⟩
    omega

/-- Away from the pair `(-B, -1)` the truncated quotient of a dividend in `[-B, B)`
stays in `[-B, B)`. -/
theorem tdiv_in_range (B : Nat) (a b : Int) (hb : b ≠ 0) (ha1 : -(B : Int) ≤ a)
    (ha2 : a < B) (hov : ¬ (a = -(B : Int) ∧ b = -1)) :
    -(B : Int) ≤ a.tdiv b ∧ a.tdiv b < B := by
  obtain ⟨m, rfl | rfl⟩ := Int.eq_nat_or_neg a <;>
  obtain ⟨n, rfl | rfl⟩ := Int.eq_nat_or_neg b
  all_goals
    have hn : 0 < n := by
      rcases Nat.eq_zero_or_pos n with h | h
      · subst h; simp at hb
      · exact h
    have hq : m / n ≤ m := Nat.div_le_self m n
    simp only [Int.neg_tdiv, Int.tdiv_neg, tdiv_natCast, neg_neg]
  · generalize m / n = q at *
    omega
  · generalize m / n = q at *
    omega
  · generalize m / n = q at *
    omega
  · rcases Nat.lt_or_ge 1 n with h1 | h1
    · rcases Nat.eq_zero_or_pos m with hm | hm
      · subst hm; simp; omega
      · have := Nat.div_lt_self hm h1
        generalize m / n = q at *
        omega
    · have hn1 : n = 1 := by omega
      subst hn1
      have : ¬ (m : Int) = B := by
        intro h
        apply hov
        constructor
        · omega
        · rfl
      simp
      omega

theorem toSigned32_range {a : Nat} (ha : a < 2 ^ 32) :
    -((2 ^ 31 : Nat) : Int) ≤ toSigned 32 a ∧ toSigned 32 a < ((2 ^ 31 : Nat) : Int) := by
  simp only [toSigned]
  norm_num at ha ⊢
  split_ifs <;> omega

theorem toSigned64_range {a : Nat} (ha : a < 2 ^ 64) :
    -((2 ^ 63 : Nat) : Int) ≤ toSigned 64 a ∧ toSigned 64 a < ((2 ^ 63 : Nat) : Int) := by
  simp only [toSigned]
  norm_num at ha ⊢
  split_ifs <;> omega

theorem signedDiv32_spec (a b : Nat) (ha : a < 2 ^ 32) (hb0 : toSigned 32 b ≠ 0)
    (hov : ¬ (toSigned 32 a = -2 ^ 31 ∧ toSigned 32 b = -1)) :
    ∃ q r : Int, ExecuteSignedDiv32 (toSigned 32 a) (toSigned 32 b) = some q ∧
      -2 ^ 31 ≤ q ∧ q < 2 ^ 31 ∧
      toSigned 32 a = q * toSigned 32 b + r ∧ |r| < |toSigned 32 b| ∧
      (r = 0 ∨ (0 < r ∧ 0 < toSigned 32 a) ∨ (r < 0 ∧ toSigned 32 a < 0)) := by
  obtain ⟨r, h1, h2, h3⟩ := tdiv_truncates (toSigned 32 a) (toSigned 32 b) hb0
  obtain ⟨l1, l2⟩ := toSigned32_range ha
  have hov2 : ¬ (toSigned 32 a = -((2 ^ 31 : Nat) : Int) ∧ toSigned 32 b = -1) := by
    simpa using hov
  obtain ⟨q1, q2⟩ := tdiv_in_range (2 ^ 31) _ _ hb0 l1 l2 hov2
  refine ⟨(toSigned 32 a).tdiv (toSigned 32 b), r, ?_, ?_, ?_, h1, h2, h3⟩
  · unfold ExecuteSignedDiv32
    rw [if_neg hb0, if_neg hov]
  · simpa using q1
  · simpa using q2

theorem signedDiv64_spec (a b : Nat) (ha : a < 2 ^ 64) (hb0 : toSigned 64 b ≠ 0)
    (hov : ¬ (toSigned 64 a = -2 ^ 63 ∧ toSigned 64 b = -1)) :
    ∃ q r : Int, ExecuteSignedDiv64 (toSigned 64 a) (toSigned 64 b) = some q ∧
      -2 ^ 63 ≤ q ∧ q < 2 ^ 63 ∧
      toSigned 64 a = q * toSigned 64 b + r ∧ |r| < |toSigned 64 b| ∧
      (r = 0 ∨ (0 < r ∧ 0 < toSigned 64 a) ∨ (r < 0 ∧ toSigned 64 a < 0)) := by
  obtain ⟨r, h1, h2, h3⟩ := tdiv_truncates (toSigned 64 a) (toSigned 64 b) hb0
  obtain ⟨l1, l2⟩ := toSigned64_range ha
  have hov2 : ¬ (toSigned 64 a = -((2 ^ 63 : Nat) : Int) ∧ toSigned 64 b = -1) := by
    simpa using hov
  obtain ⟨q1, q2⟩ := tdiv_in_range (2 ^ 63) _ _ hb0 l1 l2 hov2
  refine ⟨(toSigned 64 a).tdiv (toSigned 64 b), r, ?_, ?_, ?_, h1, h2, h3⟩
  · unfold ExecuteSignedDiv64
    rw [if_neg hb0, if_neg hov]
  · simpa using q1
  · simpa using q2

/-- C13: for two operand patterns read as two's-complement integers, with a nonzero
divisor and away from the overflowing pair `(INT_MIN, -1)`, `ExecuteSignedDiv32` and
`ExecuteSignedDiv64` return a representable quotient `q` truncated toward zero:
`a = q * b + r` with `|r| < |b|` and `r` zero or of the sign of `a`. -/
theorem ExecuteSignedDiv_truncates_toward_zero (a b : Nat) :
    (a < 2 ^ 32 → toSigned 32 b ≠ 0 →
      ¬ (toSigned 32 a = -2 ^ 31 ∧ toSigned 32 b = -1) →
      ∃ q r : Int, ExecuteSignedDiv32 (toSigned 32 a) (toSigned 32 b) = some q ∧
        -2 ^ 31 ≤ q ∧ q < 2 ^ 31 ∧
        toSigned 32 a = q * toSigned 32 b + r ∧ |r| < |toSigned 32 b| ∧
        (r = 0 ∨ (0 < r ∧ 0 < toSigned 32 a) ∨ (r < 0 ∧ toSigned 32 a < 0))) ∧
    (a < 2 ^ 64 → toSigned 64 b ≠ 0 →
      ¬ (toSigned 64 a = -2 ^ 63 ∧ toSigned 64 b = -1) →
      ∃ q r : Int, ExecuteSignedDiv64 (toSigned 64 a) (toSigned 64 b) = some q ∧
        -2 ^ 63 ≤ q ∧ q < 2 ^ 63 ∧
        toSigned 64 a = q * toSigned 64 b + r ∧ |r| < |toSigned 64 b| ∧
        (r = 0 ∨ (0 < r ∧ 0 < toSigned 64 a) ∨ (r < 0 ∧ toSigned 64 a < 0))) :=
  ⟨signedDiv32_spec a b, signedDiv64_spec a b⟩

/-- Witness of C13 at the 32-bit pattern of `-7` and at the 64-bit pattern of `-7`,
each divided by 2. -/
theorem ExecuteSignedDiv_truncates_toward_zero_witness :
    (0xFFFFFFF9 < 2 ^ 32 ∧ toSigned 32 2 ≠ 0 ∧
      ¬ (toSigned 32 0xFFFFFFF9 = -2 ^ 31 ∧ toSigned 32 2 = -1) ∧
      ∃ q r : Int, ExecuteSignedDiv32 (toSigned 32 0xFFFFFFF9) (toSigned 32 2) = some q ∧
        -2 ^ 31 ≤ q ∧ q < 2 ^ 31 ∧
        toSigned 32 0xFFFFFFF9 = q * toSigned 32 2 + r ∧ |r| < |toSigned 32 2| ∧
        (r = 0 ∨ (0 < r ∧ 0 < toSigned 32 0xFFFFFFF9) ∨
          (r < 0 ∧ toSigned 32 0xFFFFFFF9 < 0))) ∧
    (0xFFFFFFFFFFFFFFF9 < 2 ^ 64 ∧ toSigned 64 2 ≠ 0 ∧
      ¬ (toSigned 64 0xFFFFFFFFFFFFFFF9 = -2 ^ 63 ∧ toSigned 64 2 = -1) ∧
      ∃ q r : Int,
        ExecuteSignedDiv64 (toSigned 64 0xFFFFFFFFFFFFFFF9) (toSigned 64 2) = some q ∧
        -2 ^ 63 ≤ q ∧ q < 2 ^ 63 ∧
        toSigned 64 0xFFFFFFFFFFFFFFF9 = q * toSigned 64 2 + r ∧ |r| < |toSigned 64 2| ∧
        (r = 0 ∨ (0 < r ∧ 0 < toSigned 64 0xFFFFFFFFFFFFFFF9) ∨
          (r < 0 ∧ toSigned 64 0xFFFFFFFFFFFFFFF9 < 0))) :=
  ⟨⟨by decide, by decide, by decide,
      (ExecuteSignedDiv_truncates_toward_zero 0xFFFFFFF9 2).1
        (by decide) (by decide) (by decide)⟩,
    ⟨by decide, by decide, by decide,
      (ExecuteSignedDiv_truncates_toward_zero 0xFFFFFFFFFFFFFFF9 2).2
        (by decide) (by decide) (by decide)⟩⟩

/-! ## Flag packing -/

theorem getNZCVFromOp_eq_sum (v : ResultAndNZCV) :
    ExecuteGetNZCVFromOp v = boolToNat v.negative * 2 ^ 31 + boolToNat v.zero * 2 ^ 30
      + boolToNat v.carry * 2 ^ 29 + boolToNat v.overflow * 2 ^ 28 := by
  obtain ⟨r, n, z, c, o⟩ := v
  cases n <;> cases z <;> cases c <;> cases o <;>
    simp [ExecuteGetNZCVFromOp, boolToNat]

theorem getNZCVFromOp_low_bits (v : ResultAndNZCV) (i : Nat) (hi : i < 28) :
    (ExecuteGetNZCVFromOp v).testBit i = false := by
  have e : ExecuteGetNZCVFromOp v = 2 ^ 28 * (boolToNat v.negative * 8
      + boolToNat v.zero * 4 + boolToNat v.carry * 2 + boolToNat v.overflow) := by
    rw [getNZCVFromOp_eq_sum]; ring
  rw [e, Nat.testBit_mul_pow_two]
  simp [hi]

/-- C14: for every NZCV-result, whatever its result field, `ExecuteGetNZCVFromOp`
returns a 32-bit word whose bit 31 is `negative`, bit 30 is `zero`, bit 29 is `carry`,
bit 28 is `overflow`, and whose bits 27..0 are all zero. -/
theorem ExecuteGetNZCVFromOp_packs_flags (value : ResultAndNZCV) :
    ExecuteGetNZCVFromOp value < 2 ^ 32 ∧
    (ExecuteGetNZCVFromOp value).testBit 31 = value.negative ∧
    (ExecuteGetNZCVFromOp value).testBit 30 = value.zero ∧
    (ExecuteGetNZCVFromOp value).testBit 29 = value.carry ∧
    (ExecuteGetNZCVFromOp value).testBit 28 = value.overflow ∧
    (∀ i : Fin 28, (ExecuteGetNZCVFromOp value).testBit i.val = false) ∧
    (∀ r : Nat, ExecuteGetNZCVFromOp { value with result := r }
      = ExecuteGetNZCVFromOp value) := by
  refine ⟨?_, ?_, ?_, ?_, ?_, ?_, ?_⟩
  rotate_left 5
  · exact fun i => getNZCVFromOp_low_bits value i.val i.isLt
  · intro r
    rfl
  all_goals
    rw [getNZCVFromOp_eq_sum]
    obtain ⟨r, n, z, c, o⟩ := value
    cases n <;> cases z <;> cases c <;> cases o <;> dsimp only <;> decide

/-! ## The value store -/

/-- C15: for every composite with a 32-bit result field (carry-result,
carry+overflow-result, GE-result, NZCV-result, 32-bit overflow-result) and every
choice of its flag fields, `Get<u32>` on a `Value` that was `Set` from the composite
succeeds and returns the result field. -/
theorem Value_Get_u32_unwraps_composite_result (rc : ResultAndCarry)
    (rco : ResultAndCarryAndOverflow) (rge : ResultAndGE) (rn : ResultAndNZCV)
    (ro : ResultAndOverflow) :
    Value.Get .u32 (Value.Set (.resultAndCarry_u32 rc)) = some rc.result ∧
    Value.Get .u32 (Value.Set (.resultAndCarryAndOverflow_u32 rco)) = some rco.result ∧
    Value.Get .u32 (Value.Set (.resultAndGE_u32 rge)) = some rge.result ∧
    Value.Get .u32 (Value.Set (.resultAndNZCV_u32 rn)) = some rn.result ∧
    Value.Get .u32 (Value.Set (.resultAndOverflow_u32 ro)) = some ro.result :=
  ⟨rfl, rfl, rfl, rfl, rfl⟩

/-- C16: `GetCarry` succeeds exactly when the stored `Value` is a carry-result, a
carry+overflow-result or an NZCV-result, and then returns the carry field of that
variant; on every other stored representation it fails. -/
theorem Value_GetCarry_succeeds_iff_carry_bearing (value : Value) :
    ((Value.GetCarry value).isSome = true ↔
      ((∃ v, value = Value.resultAndCarry_u32 v) ∨
        (∃ v, value = Value.resultAndCarryAndOverflow_u32 v) ∨
        (∃ v, value = Value.resultAndNZCV_u32 v))) ∧
    (∀ v, Value.GetCarry (Value.resultAndCarry_u32 v) = some v.carry) ∧
    (∀ v, Value.GetCarry (Value.resultAndCarryAndOverflow_u32 v) = some v.carry) ∧
    (∀ v, Value.GetCarry (Value.resultAndNZCV_u32 v) = some v.carry) ∧
    Value.GetCarry Value.monostate = none ∧
    (∀ v, Value.GetCarry (Value.bool v) = none) ∧
    (∀ v, Value.GetCarry (Value.u8 v) = none) ∧
    (∀ v, Value.GetCarry (Value.u16 v) = none) ∧
    (∀ v, Value.GetCarry (Value.u32 v) = none) ∧
    (∀ v, Value.GetCarry (Value.u64 v) = none) ∧
    (∀ v, Value.GetCarry (Value.vector v) = none) ∧
    (∀ v, Value.GetCarry (Value.resultAndGE_u32 v) = none) ∧
    (∀ v, Value.GetCarry (Value.resultAndOverflow_u8 v) = none) ∧
    (∀ v, Value.GetCarry (Value.resultAndOverflow_u16 v) = none) ∧
    (∀ v, Value.GetCarry (Value.resultAndOverflow_u32 v) = none) ∧
    (∀ v, Value.GetCarry (Value.resultAndOverflow_u64 v) = none) ∧
    (∀ v, Value.GetCarry (Value.upperAndLower v) = none) := by
  refine ⟨?_, fun _ => rfl, fun _ => rfl, fun _ => rfl, rfl, fun _ => rfl, fun _ => rfl,
    fun _ => rfl, fun _ => rfl, fun _ => rfl, fun _ => rfl, fun _ => rfl, fun _ => rfl,
    fun _ => rfl, fun _ => rfl, fun _ => rfl, fun _ => rfl⟩
  cases value <;> simp [Value.GetCarry]

/-- C17: a 64-bit overflow-result stored with `Set` is not read back by `GetOverflow`:
the composite has the size of `Vector`, `Set` stores its bit cast as a vector, and
`GetOverflow` fails on a vector. The overflow-results of 8, 16 and 32 bits are stored
as themselves and `GetOverflow` returns their overflow field. -/
theorem Value_GetOverflow_fails_on_stored_u64_overflow_result (v : ResultAndOverflow)
    (padding : Nat) :
    (Value.Set (.resultAndOverflow_u64 v padding)
        = Value.vector (BitCastVector (.resultAndOverflow_u64 v padding)) ∧
      Value.GetOverflow (Value.Set (.resultAndOverflow_u64 v padding)) = none) ∧
    Value.GetOverflow (Value.Set (.resultAndOverflow_u8 v)) = some v.overflow ∧
    Value.GetOverflow (Value.Set (.resultAndOverflow_u16 v)) = some v.overflow ∧
    Value.GetOverflow (Value.Set (.resultAndOverflow_u32 v)) = some v.overflow :=
  ⟨⟨rfl, rfl⟩, rfl, rfl, rfl⟩

/-! ## The execution context -/

theorem store_values_self (ctx : ExecutionContext) (k : InstId) (v : Value) :
    (ctx.store k v).values k = some v := by
  simp [ExecutionContext.store]

theorem store_values_of_ne (ctx : ExecutionContext) {k j : InstId} (v : Value)
    (h : j ≠ k) : (ctx.store k v).values j = ctx.values j := by
  simp [ExecutionContext.store, h]

theorem index_of_present {ctx : ExecutionContext} {k : InstId} {v : Value}
    (h : ctx.values k = some v) : ctx.index k = (v, ctx) := by
  simp [ExecutionContext.index, h]

/-- An access with `operator[]` keeps every element that is present. -/
theorem index_snd_values_of_present (ctx : ExecutionContext) (k j : InstId) {v : Value}
    (h : ctx.values j = some v) : (ctx.index k).2.values j = some v := by
  unfold ExecutionContext.index
  cases hk : ctx.values k with
  | some w => simpa using h
  | none =>
    have hne : j ≠ k := by
      intro e
      rw [e, hk] at h
      cases h
    simp [store_values_of_ne _ _ hne, h]

theorem set_values_self (ctx : ExecutionContext) (k : InstId) (x : SetValue) :
    (ctx.set k x).values k = some (Value.Set x) := by
  simp [ExecutionContext.set, store_values_self]

/-- Dispatch of a handler of signature `(u64, u64, bool)` that returns a
`ResultAndNZCV<u64>`, on immediate operands: the value stored under the instruction
is the `Set` of the returned composite, which `Get<u64>` does not read. -/
theorem execute_nzcv_u64_handler (h : Handler) (f : Nat → Nat → Bool → ResultAndNZCV)
    (padding : Nat)
    (hh : h = Handler.value [.unsigned .u64, .unsigned .u64, .bool] (fun as =>
      match as with
      | [.unsigned a, .unsigned b, .bool carry_in] =>
          some (.resultAndNZCV_u64 (f a b carry_in) padding)
      | _ => none))
    (ctx : ExecutionContext) (p q : InstId) (a b : Nat) (carry_in : Bool) :
    ∃ ctx', Execute h ctx
        { id := p, args := [.imm .U64 a, .imm .U64 b, .imm .U1 (boolToNat carry_in)] }
        = some ctx' ∧
      ctx'.values p = some (Value.Set (.resultAndNZCV_u64 (f a b carry_in) padding)) ∧
      Value.Get .u64 (Value.Set (.resultAndNZCV_u64 (f a b carry_in) padding)) = none ∧
      GetArg (.unsigned .u64) 0 ctx' { id := q, args := [.inst p] } = none := by
  refine ⟨(ctx.index p).2.store p (Value.Set (.resultAndNZCV_u64 (f a b carry_in) padding)),
    ?_, store_values_self _ _ _, rfl, ?_⟩
  · rw [hh]
    cases carry_in <;>
      simp [Execute, resolveArgs, GetArg, GetArgUnsigned, Inst.GetArg, ScalarType.irType,
        boolToNat]
  · have hv := store_values_self (ctx.index p).2 p
      (Value.Set (.resultAndNZCV_u64 (f a b carry_in) padding))
    simp only [GetArg, GetArgUnsigned, Inst.GetArg, List.getElem?_cons_zero,
      index_of_present hv]
    rfl

/-- C18: after dispatch executes `ExecuteAdd64` or `ExecuteSub64` for an instruction
`p` with immediate operands `a`, `b`, `carry_in`, the value stored under `p` is the
`Set` of the returned 64-bit NZCV-result; `Get<u64>` on it fails, and so does the
resolution of a reference to `p` as a `u64` operand: the result field is not
returned. -/
theorem Execute_Add64_result_not_readable_as_u64 (ctx : ExecutionContext) (p q : InstId)
    (a b : Nat) (carry_in : Bool) (padding : Nat) :
    (∃ ctx', Execute (Add64Handler padding) ctx
        { id := p, args := [.imm .U64 a, .imm .U64 b, .imm .U1 (boolToNat carry_in)] }
        = some ctx' ∧
      ctx'.values p
        = some (Value.Set (.resultAndNZCV_u64 (ExecuteAdd64 a b carry_in) padding)) ∧
      Value.Get .u64 (Value.Set (.resultAndNZCV_u64 (ExecuteAdd64 a b carry_in) padding))
        = none ∧
      GetArg (.unsigned .u64) 0 ctx' { id := q, args := [.inst p] } = none) ∧
    (∃ ctx', Execute (Sub64Handler padding) ctx
        { id := p, args := [.imm .U64 a, .imm .U64 b, .imm .U1 (boolToNat carry_in)] }
        = some ctx' ∧
      ctx'.values p
        = some (Value.Set (.resultAndNZCV_u64 (ExecuteSub64 a b carry_in) padding)) ∧
      Value.Get .u64 (Value.Set (.resultAndNZCV_u64 (ExecuteSub64 a b carry_in) padding))
        = none ∧
      GetArg (.unsigned .u64) 0 ctx' { id := q, args := [.inst p] } = none) :=
  ⟨execute_nzcv_u64_handler (Add64Handler padding) ExecuteAdd64 padding rfl ctx p q a b
      carry_in,
    execute_nzcv_u64_handler (Sub64Handler padding) ExecuteSub64 padding rfl ctx p q a b
      carry_in⟩

theorem identity_of_reference (ctx : ExecutionContext) (i p : InstId) (v : Value)
    (hp : ctx.values p = some v) :
    ∃ ctx', ExecuteIdentity ctx { id := i, args := [.inst p] } = some ctx' ∧
      ctx'.values i = some v ∧ ctx'.values p = some v := by
  refine ⟨(ctx.index i).2.store i v, ?_, store_values_self _ _ _, ?_⟩
  · simp [ExecuteIdentity, Inst.GetArg, index_of_present hp]
  · by_cases h : p = i
    · subst h
      exact store_values_self _ _ _
    · rw [store_values_of_ne _ _ h]
      exact index_snd_values_of_present ctx i p hp

theorem identity_of_immediate (ctx : ExecutionContext) (i : InstId) (type : IRType)
    (bits : Nat) (x : SetValue)
    (h : ExecuteIdentity ctx { id := i, args := [.imm type bits] } = some (ctx.set i x)) :
    ∃ ctx', ExecuteIdentity ctx { id := i, args := [.imm type bits] } = some ctx' ∧
      ctx'.values i = some (Value.Set x) :=
  ⟨ctx.set i x, h, set_values_self ctx i x⟩

/-- C19: `ExecuteIdentity` on an instruction `i` whose operand references a producer `p`
present in the context leaves under `i` the value stored under `p`, which stays
under `p`; with an immediate operand of type U1, U8, U16, U32 or U64 holding `v` it
leaves under `i` the plain scalar `v` of that width. -/
theorem ExecuteIdentity_copies_reference_and_wraps_immediate (ctx : ExecutionContext)
    (i p : InstId) (v : Value) (b : Bool) (n : Nat) :
    (ctx.values p = some v →
      ∃ ctx', ExecuteIdentity ctx { id := i, args := [.inst p] } = some ctx' ∧
        ctx'.values i = some v ∧ ctx'.values p = some v) ∧
    (∃ ctx', ExecuteIdentity ctx { id := i, args := [.imm .U1 (boolToNat b)] } = some ctx' ∧
      ctx'.values i = some (Value.bool b)) ∧
    (∃ ctx', ExecuteIdentity ctx { id := i, args := [.imm .U8 n] } = some ctx' ∧
      ctx'.values i = some (Value.u8 n)) ∧
    (∃ ctx', ExecuteIdentity ctx { id := i, args := [.imm .U16 n] } = some ctx' ∧
      ctx'.values i = some (Value.u16 n)) ∧
    (∃ ctx', ExecuteIdentity ctx { id := i, args := [.imm .U32 n] } = some ctx' ∧
      ctx'.values i = some (Value.u32 n)) ∧
    (∃ ctx', ExecuteIdentity ctx { id := i, args := [.imm .U64 n] } = some ctx' ∧
      ctx'.values i = some (Value.u64 n)) := by
  refine ⟨identity_of_reference ctx i p v, ?_,
    identity_of_immediate ctx i .U8 n (.unsigned .u8 n) rfl,
    identity_of_immediate ctx i .U16 n (.unsigned .u16 n) rfl,
    identity_of_immediate ctx i .U32 n (.unsigned .u32 n) rfl,
    identity_of_immediate ctx i .U64 n (.unsigned .u64 n) rfl⟩
  have h := identity_of_immediate ctx i .U1 (boolToNat b) (.bool b)
    (by cases b <;> simp [ExecuteIdentity, Inst.GetArg, boolToNat])
  exact h

/-- Witness of C19: the context holds the NZCV-result of `ExecuteAdd32 1 2 false`
under producer 0; the consumer is instruction 1. -/
theorem ExecuteIdentity_copies_reference_and_wraps_immediate_witness :
    (ExecutionContext.empty.store 0
        (Value.resultAndNZCV_u32 (ExecuteAdd32 1 2 false))).values 0
      = some (Value.resultAndNZCV_u32 (ExecuteAdd32 1 2 false)) ∧
    ∃ ctx', ExecuteIdentity
        (ExecutionContext.empty.store 0 (Value.resultAndNZCV_u32 (ExecuteAdd32 1 2 false)))
        { id := 1, args := [.inst 0] } = some ctx' ∧
      ctx'.values 1 = some (Value.resultAndNZCV_u32 (ExecuteAdd32 1 2 false)) ∧
      ctx'.values 0 = some (Value.resultAndNZCV_u32 (ExecuteAdd32 1 2 false)) :=
  ⟨rfl,
    (ExecuteIdentity_copies_reference_and_wraps_immediate
      (ExecutionContext.empty.store 0 (Value.resultAndNZCV_u32 (ExecuteAdd32 1 2 false)))
      1 0 (Value.resultAndNZCV_u32 (ExecuteAdd32 1 2 false)) true 5).1 rfl⟩

/-- Dispatch of `ExecuteAdd32` stores an NZCV-result over `u32`, which a consumer
resolving a reference as a `u32` operand reads back as the result field. -/
theorem Execute_Add32_result_readable_as_u32 :
    ∃ ctx', Execute Add32Handler ExecutionContext.empty
        { id := 7, args := [.imm .U32 1, .imm .U32 2, .imm .U1 0] } = some ctx' ∧
      GetArg (.unsigned .u32) 0 ctx' { id := 8, args := [.inst 7] }
        = some (ArgValue.unsigned 3) :=
  ⟨_, rfl, rfl⟩

/-- C20: `ExecuteIdentity` does not fail on a reference to an absent producer: in the
empty context, for instruction 1 referencing producer 0, it returns normally and a
`Value`, the monostate, is stored for the consumer and for the producer. The operand
resolver, `ExecuteGetCarryFromOp` and `ExecuteGetOverflowFromOp` do fail there. -/
theorem ExecuteIdentity_succeeds_on_absent_producer :
    ExecutionContext.empty.values 0 = none ∧
    (∃ ctx', ExecuteIdentity ExecutionContext.empty { id := 1, args := [.inst 0] }
        = some ctx' ∧
      ctx'.values 1 = some Value.monostate ∧ ctx'.values 0 = some Value.monostate) ∧
    GetArg .bool 0 ExecutionContext.empty { id := 1, args := [.inst 0] } = none ∧
    GetArg (.unsigned .u32) 0 ExecutionContext.empty { id := 1, args := [.inst 0] } = none ∧
    GetArg (.signed .u32) 0 ExecutionContext.empty { id := 1, args := [.inst 0] } = none ∧
    Execute Add32Handler ExecutionContext.empty
      { id := 1, args := [.inst 0, .imm .U32 1, .imm .U1 0] } = none ∧
    ExecuteGetCarryFromOp ExecutionContext.empty { id := 1, args := [.inst 0] } = none ∧
    ExecuteGetOverflowFromOp ExecutionContext.empty { id := 1, args := [.inst 0] } = none :=
  ⟨rfl, ⟨_, rfl, rfl, rfl⟩, rfl, rfl, rfl, rfl, rfl, rfl⟩

/-! ## The carry flag of `ExecuteAdd32`, exactly -/

theorem add32_carry_eq (a b : Nat) (carry_in : Bool) (ha : a < 2 ^ 32) (hb : b < 2 ^ 32) :
    (ExecuteAdd32 a b carry_in).carry
      = (if carry_in = true ∧ b = 0xFFFFFFFF then false
          else decide (2 ^ 32 ≤ a + b + boolToNat carry_in)) := by
  have hc := boolToNat_le_one carry_in
  have hk : carry_in = true ↔ boolToNat carry_in = 1 := by
    cases carry_in <;> simp [boolToNat]
  simp only [ExecuteAdd32, hk]
  generalize boolToNat carry_in = k at *
  norm_num at ha hb ⊢
  by_cases h : k = 1 ∧ b = 4294967295
  · obtain ⟨h1, h2⟩ := h
    subst h1 h2
    simp
    omega
  · have hne : (!decide (k = 1) || !decide (b = 4294967295)) = true := by
      rcases not_and_or.mp h with h1 | h1 <;> simp [h1]
    rw [hne, Bool.true_and]
    exact decide_eq_decide.mpr (by omega)

/-- C22: for 32-bit operands the carry flag that `ExecuteAdd32` computes as
`result < a` is false whenever `carry_in` is set and `b = 0xFFFFFFFF`, equals the
unsigned carry-out of `a + b + carry_in` in every other case, and so differs from the
carry-out exactly when `carry_in` is set and `b = 0xFFFFFFFF`. -/
theorem ExecuteAdd32_carry_differs_from_carry_out_iff (a b : Nat) (carry_in : Bool)
    (ha : a < 2 ^ 32) (hb : b < 2 ^ 32) :
    (ExecuteAdd32 a b carry_in).carry
      = (if carry_in = true ∧ b = 0xFFFFFFFF then false
          else decide (2 ^ 32 ≤ a + b + boolToNat carry_in)) ∧
    ((ExecuteAdd32 a b carry_in).carry ≠ decide (2 ^ 32 ≤ a + b + boolToNat carry_in)
      ↔ (carry_in = true ∧ b = 0xFFFFFFFF)) := by
  refine ⟨add32_carry_eq a b carry_in ha hb, ?_⟩
  rw [add32_carry_eq a b carry_in ha hb]
  by_cases h : carry_in = true ∧ b = 0xFFFFFFFF
  · rw [if_pos h]
    obtain ⟨h1, h2⟩ := h
    subst h1 h2
    simp [boolToNat]
  · rw [if_neg h]
    simp [h]

/-- Witness of C22 at `(5, 0xFFFFFFFF, true)`, where the flag differs from the
carry-out, and at `(0xFFFFFFFF, 1, false)`, where it equals it. -/
theorem ExecuteAdd32_carry_differs_from_carry_out_iff_witness :
    (5 < 2 ^ 32 ∧ 0xFFFFFFFF < 2 ^ 32 ∧
      (ExecuteAdd32 5 0xFFFFFFFF true).carry
        = (if true = true ∧ 0xFFFFFFFF = 0xFFFFFFFF then false
            else decide (2 ^ 32 ≤ 5 + 0xFFFFFFFF + boolToNat true)) ∧
      ((ExecuteAdd32 5 0xFFFFFFFF true).carry
          ≠ decide (2 ^ 32 ≤ 5 + 0xFFFFFFFF + boolToNat true)
        ↔ (true = true ∧ 0xFFFFFFFF = 0xFFFFFFFF))) ∧
    (0xFFFFFFFF < 2 ^ 32 ∧ 1 < 2 ^ 32 ∧
      (ExecuteAdd32 0xFFFFFFFF 1 false).carry
        = (if false = true ∧ 1 = 0xFFFFFFFF then false
            else decide (2 ^ 32 ≤ 0xFFFFFFFF + 1 + boolToNat false)) ∧
      ((ExecuteAdd32 0xFFFFFFFF 1 false).carry
          ≠ decide (2 ^ 32 ≤ 0xFFFFFFFF + 1 + boolToNat false)
        ↔ (false = true ∧ 1 = 0xFFFFFFFF))) :=
  ⟨⟨by decide, by decide,
      ExecuteAdd32_carry_differs_from_carry_out_iff 5 0xFFFFFFFF true
        (by decide) (by decide)⟩,
    ⟨by decide, by decide,
      ExecuteAdd32_carry_differs_from_carry_out_iff 0xFFFFFFFF 1 false
        (by decide) (by decide)⟩⟩

/-! ## Single assignment -/

theorem index_of_absent {ctx : ExecutionContext} {k : InstId} (h : ctx.values k = none) :
    ctx.index k = (Value.monostate, ctx.store k Value.monostate) := by
  simp [ExecutionContext.index, h]

theorem index_snd_values_of_ne (ctx : ExecutionContext) {k j : InstId} (h : j ≠ k) :
    (ctx.index k).2.values j = ctx.values j := by
  unfold ExecutionContext.index
  cases hk : ctx.values k with
  | some w => rfl
  | none => exact store_values_of_ne _ _ h

theorem index_snd_of_present {ctx : ExecutionContext} {k : InstId}
    (h : (ctx.values k).isSome = true) : (ctx.index k).2 = ctx := by
  obtain ⟨v, hv⟩ := Option.isSome_iff_exists.mp h
  rw [index_of_present hv]

theorem index_store_values_of_ne (ctx : ExecutionContext) {k j : InstId} (x : Value)
    (h : j ≠ k) : ((ctx.index k).2.store k x).values j = ctx.values j := by
  rw [store_values_of_ne _ _ h, index_snd_values_of_ne _ h]

theorem head_reference_mem {inst : Inst} {p : InstId}
    (h : inst.GetArg 0 = some (IRValue.inst p)) : p ∈ inst.references := by
  obtain ⟨id, args⟩ := inst
  cases args with
  | nil => simp [Inst.GetArg] at h
  | cons a tl =>
    simp only [Inst.GetArg, List.getElem?_cons_zero, Option.some.injEq] at h
    subst h
    simp [Inst.references]

/-- A successful `ExecuteIdentity` either copies from a referenced producer, after the
two accesses with `operator[]`, or sets its own element. -/
theorem identity_step {ctx ctx' : ExecutionContext} {inst : Inst}
    (h : ExecuteIdentity ctx inst = some ctx') :
    (∃ p, inst.GetArg 0 = some (IRValue.inst p) ∧
      ctx' = ((ctx.index p).2.index inst.id).2.store inst.id (ctx.index p).1) ∨
    (∃ x, ctx' = (ctx.index inst.id).2.store inst.id x) := by
  unfold ExecuteIdentity at h
  cases harg : inst.GetArg 0 with
  | none => simp [harg] at h
  | some a =>
    cases a with
    | inst p =>
      simp only [harg, Option.some.injEq] at h
      exact Or.inl ⟨p, rfl, h.symm⟩
    | imm type bits =>
      right
      cases type <;> simp [harg, ExecutionContext.set] at h <;> exact ⟨_, h.symm⟩

/-- A successful flag projection found its producer present and wrote its own
element only; `get` is `GetCarry` or `GetOverflow`. -/
theorem flag_step (get : Value → Option Bool) {ctx ctx' : ExecutionContext} {inst : Inst}
    (h : (match inst.GetArg 0 with
      | some (.inst p) =>
          let ctx1 := (ctx.index inst.id).2
          let (v, ctx2) := ctx1.index p
          match get v with
          | none => none
          | some c => some (ctx2.store inst.id (Value.Set (.bool c)))
      | _ => none) = some ctx')
    (hmono : get Value.monostate = none) :
    ∃ x, ctx' = (ctx.index inst.id).2.store inst.id x := by
  cases harg : inst.GetArg 0 with
  | none => simp [harg] at h
  | some a =>
    cases a with
    | imm type bits => simp [harg] at h
    | inst p =>
      simp only [harg] at h
      cases hp : ((ctx.index inst.id).2).values p with
      | none =>
        rw [index_of_absent hp] at h
        simp [hmono] at h
      | some v =>
        rw [index_of_present hp] at h
        simp only at h
        cases hg : get v with
        | none => simp [hg] at h
        | some c =>
          simp only [hg, Option.some.injEq] at h
          exact ⟨_, h.symm⟩

/-- The three shapes of a successful step: nothing is written, the element of the
executing instruction is written, or `ExecuteIdentity` copies from a reference. -/
theorem step_shape {b : Bound} {ctx ctx' : ExecutionContext} {inst : Inst}
    (h : Execute b.handler ctx inst = some ctx') :
    ctx' = ctx ∨
    (∃ x, ctx' = (ctx.index inst.id).2.store inst.id x) ∨
    (∃ p, inst.GetArg 0 = some (IRValue.inst p) ∧
      ctx' = ((ctx.index p).2.index inst.id).2.store inst.id (ctx.index p).1) := by
  cases b with
  | Identity =>
    rcases identity_step (by simpa [Execute, Bound.handler] using h) with ⟨p, h1, h2⟩ | h2
    · exact Or.inr (Or.inr ⟨p, h1, h2⟩)
    · exact Or.inr (Or.inl h2)
  | GetCarryFromOp =>
    exact Or.inr (Or.inl (flag_step Value.GetCarry
      (by simpa [Execute, Bound.handler, ExecuteGetCarryFromOp] using h) rfl))
  | GetOverflowFromOp =>
    exact Or.inr (Or.inl (flag_step Value.GetOverflow
      (by simpa [Execute, Bound.handler, ExecuteGetOverflowFromOp] using h) rfl))
  | void params =>
    left
    simp only [Execute, Bound.handler, Option.map_eq_some'] at h
    obtain ⟨_, _, h2⟩ := h
    exact h2.symm
  | value params fn =>
    right; left
    simp only [Execute, Bound.handler] at h
    cases hr : resolveArgs 0 (ctx.index inst.id).2 inst params with
    | none => simp [hr] at h
    | some as =>
      simp only [hr] at h
      cases hf : fn as with
      | none => simp [hf] at h
      | some r =>
        simp only [hf, Option.some.injEq] at h
        exact ⟨_, h.symm⟩

/-- A step keeps every value stored under a key other than that of the executing
instruction. -/
theorem step_keeps_stored {b : Bound} {ctx ctx' : ExecutionContext} {inst : Inst}
    (h : Execute b.handler ctx inst = some ctx') {j : InstId} (hj : j ≠ inst.id)
    {v : Value} (hv : ctx.values j = some v) : ctx'.values j = some v := by
  rcases step_shape h with h1 | ⟨x, h1⟩ | ⟨p, _, h1⟩
  · rw [h1]; exact hv
  · rw [h1, index_store_values_of_ne _ _ hj]; exact hv
  · rw [h1, index_store_values_of_ne _ _ hj]
    exact index_snd_values_of_present ctx p j hv

/-- A step whose referenced producers are all present writes at most its own key. -/
theorem step_writes_own_key {b : Bound} {ctx ctx' : ExecutionContext} {inst : Inst}
    (h : Execute b.handler ctx inst = some ctx')
    (hpres : ∀ p ∈ inst.references, (ctx.values p).isSome = true) :
    writesAtMostOwnKey ctx ctx' inst := by
  intro j hj
  rcases step_shape h with h1 | ⟨x, h1⟩ | ⟨p, hp, h1⟩
  · rw [h1]
  · rw [h1, index_store_values_of_ne _ _ hj]
  · rw [h1, index_snd_of_present (hpres p (head_reference_mem hp)),
      index_store_values_of_ne _ _ hj]

theorem executeStream_append {pre post : List (Bound × Inst)} :
    ∀ {ctx ctxF : ExecutionContext}, executeStream ctx (pre ++ post) = some ctxF →
      ∃ ctxK, executeStream ctx pre = some ctxK ∧ executeStream ctxK post = some ctxF := by
  induction pre with
  | nil => intro ctx ctxF h; exact ⟨ctx, rfl, h⟩
  | cons s rest ih =>
    intro ctx ctxF h
    obtain ⟨b, inst⟩ := s
    simp only [List.cons_append, executeStream] at h ⊢
    cases hs : Execute b.handler ctx inst with
    | none => simp [hs] at h
    | some ctx1 =>
      simp only [hs] at h ⊢
      exact ih h

/-- A value stored under a key that no instruction of the stream has is still there
when the stream has run. -/
theorem executeStream_keeps_stored {steps : List (Bound × Inst)} :
    ∀ {ctx ctxF : ExecutionContext}, executeStream ctx steps = some ctxF →
      ∀ {j : InstId} {v : Value}, ctx.values j = some v →
        (∀ s ∈ steps, s.2.id ≠ j) → ctxF.values j = some v := by
  induction steps with
  | nil =>
    intro ctx ctxF h j v hv _
    simp only [executeStream, Option.some.injEq] at h
    rw [← h]; exact hv
  | cons s rest ih =>
    intro ctx ctxF h j v hv hne
    obtain ⟨b, inst⟩ := s
    simp only [executeStream] at h
    cases hs : Execute b.handler ctx inst with
    | none => simp [hs] at h
    | some ctx1 =>
      simp only [hs] at h
      have hj : j ≠ inst.id := fun e => hne (b, inst) (List.mem_cons_self _ _) e.symm
      exact ih h (step_keeps_stored hs hj hv)
        (fun s hs' => hne s (List.mem_cons_of_mem _ hs'))

/-- Single assignment: in a stream of pairwise distinct instructions executed in
order, every value stored under the key of an earlier instruction is unchanged by all
the later steps; a handler returning `void` stores nothing; and a step whose
reference operands all name producers present in the context writes at most the key
of its own instruction. -/
theorem executeStream_single_assignment (pre post : List (Bound × Inst))
    (ctx0 ctxF : ExecutionContext)
    (hdistinct : ((pre ++ post).map (fun s => s.2.id)).Nodup)
    (hrun : executeStream ctx0 (pre ++ post) = some ctxF) :
    (∃ ctxK, executeStream ctx0 pre = some ctxK ∧ executeStream ctxK post = some ctxF ∧
      ∀ s ∈ pre, ∀ v, ctxK.values s.2.id = some v → ctxF.values s.2.id = some v) ∧
    (∀ (params : List ArgType) (ctx : ExecutionContext) (inst : Inst),
      Execute (Bound.void params).handler ctx inst = none ∨
      Execute (Bound.void params).handler ctx inst = some ctx) ∧
    (∀ (b : Bound) (ctx ctx' : ExecutionContext) (inst : Inst),
      Execute b.handler ctx inst = some ctx' →
      (∀ p ∈ inst.references, (ctx.values p).isSome = true) →
      writesAtMostOwnKey ctx ctx' inst) := by
  refine ⟨?_, ?_, fun b ctx ctx' inst h hpres => step_writes_own_key h hpres⟩
  · obtain ⟨ctxK, h1, h2⟩ := executeStream_append hrun
    refine ⟨ctxK, h1, h2, fun s hs v hv => executeStream_keeps_stored h2 hv ?_⟩
    intro t ht e
    rw [List.map_append, List.nodup_append] at hdistinct
    exact hdistinct.2.2 (List.mem_map_of_mem (fun s => s.2.id) hs)
      (e ▸ List.mem_map_of_mem (fun s => s.2.id) ht)
  · intro params ctx inst
    cases h : Execute (Bound.void params).handler ctx inst with
    | none => exact Or.inl rfl
    | some ctx' =>
      rcases step_shape h with h1 | ⟨x, h1⟩ | ⟨p, _, h1⟩
      · exact Or.inr (by rw [h1])
      · simp only [Execute, Bound.handler, Option.map_eq_some'] at h
        obtain ⟨_, _, h2⟩ := h
        exact Or.inr (by rw [h2])
      · simp only [Execute, Bound.handler, Option.map_eq_some'] at h
        obtain ⟨_, _, h2⟩ := h
        exact Or.inr (by rw [h2])

/-- Single assignment on the stream `Identity 0 <- U32 7`, then `Identity 1 <- %0`, then a
`void` handler of one `u32` parameter reading `%1`, run from the empty context and
split after its first instruction; and the step `Identity 1 <- %0` on the context
that holds `%0`. -/
theorem executeStream_single_assignment_witness :
    ∃ ctxF,
      (([(Bound.Identity, ({ id := 0, args := [.imm .U32 7] } : Inst))] ++
          [(Bound.Identity, ({ id := 1, args := [.inst 0] } : Inst)),
           (Bound.void [.unsigned .u32], ({ id := 2, args := [.inst 1] } : Inst))]).map
        (fun s => s.2.id)).Nodup ∧
      executeStream ExecutionContext.empty
        ([(Bound.Identity, ({ id := 0, args := [.imm .U32 7] } : Inst))] ++
          [(Bound.Identity, ({ id := 1, args := [.inst 0] } : Inst)),
           (Bound.void [.unsigned .u32], ({ id := 2, args := [.inst 1] } : Inst))])
        = some ctxF ∧
      (∃ ctxK,
        executeStream ExecutionContext.empty
          [(Bound.Identity, ({ id := 0, args := [.imm .U32 7] } : Inst))] = some ctxK ∧
        executeStream ctxK
          [(Bound.Identity, ({ id := 1, args := [.inst 0] } : Inst)),
           (Bound.void [.unsigned .u32], ({ id := 2, args := [.inst 1] } : Inst))]
          = some ctxF ∧
        ∀ s ∈ [(Bound.Identity, ({ id := 0, args := [.imm .U32 7] } : Inst))],
          ∀ v, ctxK.values s.2.id = some v → ctxF.values s.2.id = some v) ∧
      (∃ ctx', Execute Bound.Identity.handler
          (ExecutionContext.empty.store 0 (Value.u32 7)) { id := 1, args := [.inst 0] }
          = some ctx' ∧
        (∀ p ∈ ({ id := 1, args := [.inst 0] } : Inst).references,
          ((ExecutionContext.empty.store 0 (Value.u32 7)).values p).isSome = true) ∧
        writesAtMostOwnKey (ExecutionContext.empty.store 0 (Value.u32 7)) ctx'
          { id := 1, args := [.inst 0] }) := by
  obtain ⟨ctxF, hrun⟩ : ∃ c, executeStream ExecutionContext.empty
      ([(Bound.Identity, ({ id := 0, args := [.imm .U32 7] } : Inst))] ++
        [(Bound.Identity, ({ id := 1, args := [.inst 0] } : Inst)),
         (Bound.void [.unsigned .u32], ({ id := 2, args := [.inst 1] } : Inst))])
      = some c := ⟨_, rfl⟩
  have hd : (([(Bound.Identity, ({ id := 0, args := [.imm .U32 7] } : Inst))] ++
      [(Bound.Identity, ({ id := 1, args := [.inst 0] } : Inst)),
       (Bound.void [.unsigned .u32], ({ id := 2, args := [.inst 1] } : Inst))]).map
      (fun s => s.2.id)).Nodup := by decide
  have hpres : ∀ p ∈ ({ id := 1, args := [.inst 0] } : Inst).references,
      ((ExecutionContext.empty.store 0 (Value.u32 7)).values p).isSome = true := by
    decide
  have T := executeStream_single_assignment _ _ ExecutionContext.empty ctxF hd hrun
  exact ⟨ctxF, hd, hrun, T.1, _, rfl, hpres, T.2.2 Bound.Identity _ _ _ rfl hpres⟩

/-- Presence is needed for the own-key property. A `void` handler stores nothing, so
in the stream of a `void` handler on instruction 0 followed by `Identity 1 <- %0` the
producer is absent, and the `Identity` step stores a monostate under key 0 besides
writing its own key 1. The data model excludes such a stream: a referenced producer
is present in the context when its consumer executes. -/
theorem executeStream_identity_writes_producer_key :
    ([(Bound.void [.unsigned .u64], ({ id := 0, args := [.imm .U64 5] } : Inst)),
      (Bound.Identity, ({ id := 1, args := [.inst 0] } : Inst))].map
        (fun s => s.2.id)).Nodup ∧
    referencesNameEarlier []
      [({ id := 0, args := [.imm .U64 5] } : Inst), { id := 1, args := [.inst 0] }] = true ∧
    ∃ ctx1 ctx2,
      Execute (Bound.void [.unsigned .u64]).handler ExecutionContext.empty
        { id := 0, args := [.imm .U64 5] } = some ctx1 ∧
      Execute Bound.Identity.handler ctx1 { id := 1, args := [.inst 0] } = some ctx2 ∧
      executeStream ExecutionContext.empty
        [(Bound.void [.unsigned .u64], ({ id := 0, args := [.imm .U64 5] } : Inst)),
         (Bound.Identity, ({ id := 1, args := [.inst 0] } : Inst))] = some ctx2 ∧
      ctx1.values 0 = none ∧ ctx2.values 0 = some Value.monostate ∧
      ¬ writesAtMostOwnKey ctx1 ctx2 { id := 1, args := [.inst 0] } := by
  refine ⟨by decide, by decide, _, _, rfl, rfl, rfl, rfl, rfl, ?_⟩
  intro h
  have h0 := h 0 (by decide)
  revert h0
  decide

/-! ## Presence of producers along a run -/

/-- The invariant of a run holds for the rest of the stream after a prefix has run. -/
theorem producersPresent_append {pre rest : List (Bound × Inst)} :
    ∀ {ctx ctxK : ExecutionContext}, producersPresent ctx (pre ++ rest) = true →
      executeStream ctx pre = some ctxK → producersPresent ctxK rest = true := by
  induction pre with
  | nil =>
    intro ctx ctxK h hrun
    simp only [executeStream, Option.some.injEq] at hrun
    subst hrun
    exact h
  | cons s tl ih =>
    intro ctx ctxK h hrun
    obtain ⟨b, inst⟩ := s
    simp only [List.cons_append, producersPresent, Bool.and_eq_true] at h
    simp only [executeStream] at hrun
    cases hs : Execute b.handler ctx inst with
    | none => simp [hs] at hrun
    | some ctx1 =>
      simp only [hs] at h hrun
      exact ih h.2 hrun

/-- A handler returning `void` leaves the context as it was. -/
theorem void_step {params : List ArgType} {ctx ctx' : ExecutionContext} {inst : Inst}
    (h : Execute (Bound.void params).handler ctx inst = some ctx') : ctx' = ctx := by
  simp only [Execute, Bound.handler, Option.map_eq_some'] at h
  obtain ⟨_, _, h2⟩ := h
  exact h2.symm

/-- A successful step of a handler that returns a value ends with a write to the key
of its own instruction. -/
theorem returning_step {b : Bound} {ctx ctx' : ExecutionContext} {inst : Inst}
    (hb : b.returnsValue = true) (h : Execute b.handler ctx inst = some ctx') :
    ∃ c x, ctx' = ExecutionContext.store c inst.id x := by
  cases b with
  | Identity =>
    rcases identity_step (by simpa [Execute, Bound.handler] using h) with ⟨p, _, h2⟩ | ⟨x, h2⟩
    · exact ⟨_, _, h2⟩
    · exact ⟨_, _, h2⟩
  | GetCarryFromOp =>
    obtain ⟨x, h2⟩ := flag_step Value.GetCarry
      (by simpa [Execute, Bound.handler, ExecuteGetCarryFromOp] using h) rfl
    exact ⟨_, _, h2⟩
  | GetOverflowFromOp =>
    obtain ⟨x, h2⟩ := flag_step Value.GetOverflow
      (by simpa [Execute, Bound.handler, ExecuteGetOverflowFromOp] using h) rfl
    exact ⟨_, _, h2⟩
  | void params => simp [Bound.returnsValue] at hb
  | value params fn =>
    simp only [Execute, Bound.handler] at h
    cases hr : resolveArgs 0 (ctx.index inst.id).2 inst params with
    | none => simp [hr] at h
    | some as =>
      simp only [hr] at h
      cases hf : fn as with
      | none => simp [hf] at h
      | some r =>
        simp only [hf, Option.some.injEq] at h
        exact ⟨_, _, h.symm⟩

/-- A step keeps every key that is present. -/
theorem step_keeps_present {b : Bound} {ctx ctx' : ExecutionContext} {inst : Inst}
    (h : Execute b.handler ctx inst = some ctx') {j : InstId}
    (hj : (ctx.values j).isSome = true) : (ctx'.values j).isSome = true := by
  obtain ⟨v, hv⟩ := Option.isSome_iff_exists.mp hj
  by_cases e : j = inst.id
  · subst e
    rcases step_shape h with h1 | ⟨x, h1⟩ | ⟨p, _, h1⟩
    · rw [h1]; exact hj
    · rw [h1, store_values_self]; rfl
    · rw [h1, store_values_self]; rfl
  · rw [step_keeps_stored h e hv]; rfl

/-- After a successful step of a handler that returns a value, the key of its
instruction is present. -/
theorem step_stores_own {b : Bound} {ctx ctx' : ExecutionContext} {inst : Inst}
    (hb : b.returnsValue = true) (h : Execute b.handler ctx inst = some ctx') :
    (ctx'.values inst.id).isSome = true := by
  obtain ⟨c, x, h1⟩ := returning_step hb h
  rw [h1, store_values_self]; rfl

/-- Referenced producers are present along the run as soon as every reference names
an earlier instruction of the stream whose handler returns a value. -/
theorem producersPresent_of_references {steps : List (Bound × Inst)} :
    ∀ {ctx : ExecutionContext} {done : List InstId},
      (∀ p ∈ done, (ctx.values p).isSome = true) →
      referencesNameEarlierProducers done steps = true →
      producersPresent ctx steps = true := by
  induction steps with
  | nil => intro ctx done _ _; rfl
  | cons s rest ih =>
    intro ctx done hdone href
    obtain ⟨b, inst⟩ := s
    simp only [referencesNameEarlierProducers, Bool.and_eq_true, List.all_eq_true] at href
    simp only [producersPresent, Bool.and_eq_true, List.all_eq_true]
    refine ⟨fun p hp => hdone p (List.mem_of_elem_eq_true (href.1 p hp)), ?_⟩
    cases hs : Execute b.handler ctx inst with
    | none => rfl
    | some ctx' =>
      simp only
      refine ih ?_ href.2
      intro p hp
      cases hb : b.returnsValue with
      | false =>
        rw [hb] at hp
        exact step_keeps_present hs (hdone p hp)
      | true =>
        rw [hb] at hp
        simp only [if_true, List.mem_cons] at hp
        rcases hp with e | hp
        · rw [e]; exact step_stores_own hb hs
        · exact step_keeps_present hs (hdone p hp)

/-- C21: in a stream of pairwise distinct instructions executed in order, in which every
reference operand names a producer present in the context when its instruction
executes, each executed instruction writes at most its own key: every value stored
under the key of an earlier instruction is unchanged by the step and by all the later
steps (single assignment), and a handler returning `void` stores nothing. -/
theorem executeStream_step_writes_own_key (pre post : List (Bound × Inst)) (b : Bound) (inst : Inst)
    (ctx0 ctxF : ExecutionContext)
    (hdistinct : ((pre ++ (b, inst) :: post).map (fun s => s.2.id)).Nodup)
    (hpres : producersPresent ctx0 (pre ++ (b, inst) :: post) = true)
    (hrun : executeStream ctx0 (pre ++ (b, inst) :: post) = some ctxF) :
    ∃ ctxK ctxK', executeStream ctx0 pre = some ctxK ∧
      Execute b.handler ctxK inst = some ctxK' ∧
      executeStream ctxK' post = some ctxF ∧
      writesAtMostOwnKey ctxK ctxK' inst ∧
      (∀ s ∈ pre, ∀ v, ctxK.values s.2.id = some v →
        ctxK'.values s.2.id = some v ∧ ctxF.values s.2.id = some v) ∧
      (∀ params, b = Bound.void params → ctxK' = ctxK) := by
  obtain ⟨ctxK, h1, h2⟩ := executeStream_append hrun
  have hp := producersPresent_append hpres h1
  simp only [producersPresent, Bool.and_eq_true, List.all_eq_true] at hp
  simp only [executeStream] at h2
  cases hs : Execute b.handler ctxK inst with
  | none => simp [hs] at h2
  | some ctxK' =>
    simp only [hs] at h2
    rw [List.map_append, List.map_cons, List.nodup_append] at hdistinct
    obtain ⟨_, hd2, hd3⟩ := hdistinct
    refine ⟨ctxK, ctxK', h1, hs, h2, step_writes_own_key hs hp.1, ?_, ?_⟩
    · intro s hsmem v hv
      have hmem : s.2.id ∈ List.map (fun s => s.2.id) pre :=
        List.mem_map_of_mem (fun s => s.2.id) hsmem
      have hne : s.2.id ≠ inst.id := fun e =>
        hd3 hmem (by rw [e]; exact List.mem_cons_self _ _)
      have hK' := step_keeps_stored hs hne hv
      refine ⟨hK', executeStream_keeps_stored h2 hK' ?_⟩
      intro t ht e
      have hmemt : t.2.id ∈ List.map (fun s => s.2.id) post :=
        List.mem_map_of_mem (fun s => s.2.id) ht
      exact hd3 hmem (List.mem_cons_of_mem _ (by rw [← e]; exact hmemt))
    · intro params hb
      subst hb
      exact void_step hs

/-- Witness of C21: the stream `Identity 0 <- U32 7`, `Identity 1 <- %0`, then a `void`
handler of one `u32` parameter reading `%1`, run from the empty context; taken at its
second step, which copies from a present producer, and at its third step, whose
handler returns `void`. -/
theorem executeStream_step_writes_own_key_witness :
    ∃ ctxF,
      ([(Bound.Identity, ({ id := 0, args := [.imm .U32 7] } : Inst)),
        (Bound.Identity, ({ id := 1, args := [.inst 0] } : Inst)),
        (Bound.void [.unsigned .u32], ({ id := 2, args := [.inst 1] } : Inst))].map
          (fun s => s.2.id)).Nodup ∧
      producersPresent ExecutionContext.empty
        [(Bound.Identity, ({ id := 0, args := [.imm .U32 7] } : Inst)),
         (Bound.Identity, ({ id := 1, args := [.inst 0] } : Inst)),
         (Bound.void [.unsigned .u32], ({ id := 2, args := [.inst 1] } : Inst))] = true ∧
      executeStream ExecutionContext.empty
        [(Bound.Identity, ({ id := 0, args := [.imm .U32 7] } : Inst)),
         (Bound.Identity, ({ id := 1, args := [.inst 0] } : Inst)),
         (Bound.void [.unsigned .u32], ({ id := 2, args := [.inst 1] } : Inst))]
        = some ctxF ∧
      (∃ ctxK ctxK',
        executeStream ExecutionContext.empty
          [(Bound.Identity, ({ id := 0, args := [.imm .U32 7] } : Inst))] = some ctxK ∧
        Execute Bound.Identity.handler ctxK { id := 1, args := [.inst 0] } = some ctxK' ∧
        executeStream ctxK'
          [(Bound.void [.unsigned .u32], ({ id := 2, args := [.inst 1] } : Inst))]
          = some ctxF ∧
        writesAtMostOwnKey ctxK ctxK' { id := 1, args := [.inst 0] } ∧
        (∀ s ∈ [(Bound.Identity, ({ id := 0, args := [.imm .U32 7] } : Inst))],
          ∀ v, ctxK.values s.2.id = some v →
            ctxK'.values s.2.id = some v ∧ ctxF.values s.2.id = some v)) ∧
      (∃ ctxK ctxK',
        executeStream ExecutionContext.empty
          [(Bound.Identity, ({ id := 0, args := [.imm .U32 7] } : Inst)),
           (Bound.Identity, ({ id := 1, args := [.inst 0] } : Inst))] = some ctxK ∧
        Execute (Bound.void [.unsigned .u32]).handler ctxK { id := 2, args := [.inst 1] }
          = some ctxK' ∧
        writesAtMostOwnKey ctxK ctxK' { id := 2, args := [.inst 1] } ∧
        ctxK' = ctxK) := by
  obtain ⟨ctxF, hrun⟩ : ∃ c, executeStream ExecutionContext.empty
      [(Bound.Identity, ({ id := 0, args := [.imm .U32 7] } : Inst)),
       (Bound.Identity, ({ id := 1, args := [.inst 0] } : Inst)),
       (Bound.void [.unsigned .u32], ({ id := 2, args := [.inst 1] } : Inst))]
      = some c := ⟨_, rfl⟩
  have hd : ([(Bound.Identity, ({ id := 0, args := [.imm .U32 7] } : Inst)),
      (Bound.Identity, ({ id := 1, args := [.inst 0] } : Inst)),
      (Bound.void [.unsigned .u32], ({ id := 2, args := [.inst 1] } : Inst))].map
        (fun s => s.2.id)).Nodup := by decide
  have hp : producersPresent ExecutionContext.empty
      [(Bound.Identity, ({ id := 0, args := [.imm .U32 7] } : Inst)),
       (Bound.Identity, ({ id := 1, args := [.inst 0] } : Inst)),
       (Bound.void [.unsigned .u32], ({ id := 2, args := [.inst 1] } : Inst))] = true := rfl
  obtain ⟨cK, cK', a1, a2, a3, a4, a5, _⟩ := executeStream_step_writes_own_key
    [(Bound.Identity, ({ id := 0, args := [.imm .U32 7] } : Inst))]
    [(Bound.void [.unsigned .u32], ({ id := 2, args := [.inst 1] } : Inst))]
    Bound.Identity { id := 1, args := [.inst 0] } ExecutionContext.empty ctxF hd hp hrun
  obtain ⟨dK, dK', b1, b2, _, b4, _, b6⟩ := executeStream_step_writes_own_key
    [(Bound.Identity, ({ id := 0, args := [.imm .U32 7] } : Inst)),
     (Bound.Identity, ({ id := 1, args := [.inst 0] } : Inst))]
    [] (Bound.void [.unsigned .u32]) { id := 2, args := [.inst 1] }
    ExecutionContext.empty ctxF hd hp hrun
  exact ⟨ctxF, hd, hp, hrun, ⟨cK, cK', a1, a2, a3, a4, a5⟩,
    ⟨dK, dK', b1, b2, b4, b6 _ rfl⟩⟩

/-- The syntactic condition on the witness stream: each reference names an earlier
instruction whose handler returns a value, which gives presence along the run. -/
theorem producersPresent_of_references_example :
    producersPresent ExecutionContext.empty
      [(Bound.Identity, ({ id := 0, args := [.imm .U32 7] } : Inst)),
       (Bound.Identity, ({ id := 1, args := [.inst 0] } : Inst)),
       (Bound.void [.unsigned .u32], ({ id := 2, args := [.inst 1] } : Inst))] = true :=
  producersPresent_of_references (fun _ h => absurd h (List.not_mem_nil _)) (by decide)

end Dynarmic
